import Mathlib

/-! # mock-funnel: metrics engine and simulation engine

A shallow embedding of `internal/mockfunnel/metrics.go`, `config.go` and the
decision procedure of `server.go`, followed by theorems about it.

Conventions of the embedding:

* a Go slice `[]int` is a `List Int`; Go `int`/`int64` values are `Int`; counters and
  latencies stay far below `2^63` and are not wrapped, while the integers of a line
  profile, which the admin endpoint stores as decoded, are wrapped to 64 bits by `wrap64`
  in `targetDelay64` and `simulate64`;
* a Go `string` is the list of its bytes (`List Nat`, every byte `< 256`); byte
  arithmetic is written with an explicit `% 256`;
* a finite `float64` is the rational number it denotes; a product, quotient or
  conversion is the exact result rounded by `f64round`; comparisons are exact;
* a run-time panic (index out of range, slice bounds, division by zero) is
  `none`, and `Abort.panic` where a call ends in an `Abort`;
* calls run one at a time; the mutexes of `latencyRing` and `slidingWindow` are taken
  and released inside one method and are not modelled; the mutex of `LineMetrics` is
  its field `mu` (held or free), and a call that does not return ends in an `Abort`.
-/

namespace MockFunnel

/-! ## Slice primitives -/

/-- Go `copy(dst, src)`: overwrite the first `min (len dst) (len src)` cells of
`dst` with those of `src`; the result is the new content of `dst`. -/
def copySlice (dst src : List Int) : List Int :=
  src.take (min dst.length src.length) ++ dst.drop (min dst.length src.length)

/-- Go `copy(dst[k:], src)` seen from `dst`; slicing at `k > len dst` panics. -/
def copyAt (dst : List Int) (k : Nat) (src : List Int) : Option (List Int) :=
  if k ≤ dst.length then some (dst.take k ++ copySlice (dst.drop k) src) else none

/-- Go `s[:k]` for a slice whose capacity equals its length. -/
def sliceTo (s : List Int) (k : Nat) : Option (List Int) :=
  if k ≤ s.length then some (s.take k) else none

/-- Go `s[k:]`. -/
def sliceFrom (s : List Int) (k : Nat) : Option (List Int) :=
  if k ≤ s.length then some (s.drop k) else none

/-! ## latencyRing (metrics.go) -/

/-- Go `type latencyRing struct { vals []int; pos int; count int }`. -/
structure latencyRing where
  vals : List Int
  pos : Nat
  count : Nat
  deriving DecidableEq, Repr

/-- Go `newLatencyRing(size)`: `vals: make([]int, size)`, `pos` and `count` zero. -/
def newLatencyRing (size : Nat) : latencyRing :=
  { vals := List.replicate size 0, pos := 0, count := 0 }

/-- Go `(*latencyRing).add`. The store `r.vals[r.pos] = v` panics when `pos` is
out of range, and `% len(r.vals)` panics when the ring has no cell. -/
def latencyRing.add (r : latencyRing) (v : Int) : Option latencyRing :=
  if r.pos < r.vals.length then
    let vals := r.vals.set r.pos v
    let pos := (r.pos + 1) % vals.length
    let count := if r.count < vals.length then r.count + 1 else r.count
    some { vals := vals, pos := pos, count := count }
  else none

/-- Go `(*latencyRing).snapshot`. -/
def latencyRing.snapshot (r : latencyRing) : Option (List Int) :=
  let out := List.replicate r.count (0 : Int)
  if r.count < r.vals.length then
    (sliceTo r.vals r.count).map (copySlice out)
  else
    (sliceFrom r.vals r.pos).bind fun hi =>
    (sliceTo r.vals r.pos).bind fun lo =>
    copyAt (copySlice out hi) (r.vals.length - r.pos) lo

/-- A sequence of `add` calls, in order. -/
def latencyRing.addAll (r : latencyRing) : List Int → Option latencyRing
  | [] => some r
  | v :: vs => (r.add v).bind fun r1 => r1.addAll vs

/-- The content of the ring read from the write cursor round to the cell before it. -/
def latencyRing.rot (r : latencyRing) : List Int :=
  r.vals.drop r.pos ++ r.vals.take r.pos

/-- Loop invariant of `add`: after the writes `xs` into a ring of capacity `C`. -/
def RingInv (C : Nat) (xs : List Int) (r : latencyRing) : Prop :=
  r.vals.length = C ∧ r.pos = xs.length % C ∧ r.count = min xs.length C ∧
    r.rot = (List.replicate C 0 ++ xs).drop xs.length

/-! ## percentile (metrics.go) -/

/-- Go `sort.Ints`: the ascending rearrangement of the slice. -/
def sortInts (s : List Int) : List Int :=
  s.insertionSort (· ≤ ·)

/-- The integer nearest to `y`, the even one of the two when `y` lies half-way. -/
def roundHalfEven (y : ℚ) : Int :=
  if y - ⌊y⌋ < 1 / 2 then ⌊y⌋
  else if y - ⌊y⌋ > 1 / 2 then ⌊y⌋ + 1
  else if ⌊y⌋ % 2 = 0 then ⌊y⌋ else ⌊y⌋ + 1

/-- IEEE 754 binary64 rounding (to nearest, ties to even) of the exact result `x` of a
`float64` operation: the result is a multiple of `2^(e-52)`, where `e` is the binary
exponent of `x`, not below `-1022` (subnormal range). Overflow to infinity is left out:
the magnitudes that occur here stay below `2^1024`. -/
def f64round (x : ℚ) : ℚ :=
  if x = 0 then 0
  else
    (roundHalfEven (x / (2 : ℚ) ^ (max (Int.log 2 |x|) (-1022) - 52)) : ℚ)
      * (2 : ℚ) ^ (max (Int.log 2 |x|) (-1022) - 52)

/-- Go `int(x)` for a `float64`: truncation toward zero. -/
def truncToInt (x : ℚ) : Int :=
  if 0 ≤ x then ⌊x⌋ else ⌈x⌉

/-- Go `s[i]` for an `int` index: a negative or too large index panics. -/
def indexInt (s : List Int) (i : Int) : Option Int :=
  if 0 ≤ i then s[i.toNat]? else none

/-- Go `percentile(vals, p)`, returning the result together with the content of the
caller's slice `vals` when the call returns. The body copies `vals` into a fresh slice
`s` and sorts `s`; `vals` itself is only read. `p` is the value of the `float64`
argument. In `float64(len(s)-1) * p / 100.0` the conversion, the product and the quotient
are each rounded to `float64`. -/
def percentileRun (vals : List Int) (p : ℚ) : Option Int × List Int :=
  if vals.length = 0 then (some (-1), vals)
  else
    let s := copySlice (List.replicate vals.length 0) vals
    let s := sortInts s
    if p ≤ 0 then (indexInt s 0, vals)
    else if p ≥ 100 then (indexInt s ((s.length : Int) - 1), vals)
    else
      let idx := truncToInt
        (f64round (f64round (f64round (((s.length : Int) - 1 : Int) : ℚ) * p) / 100))
      (indexInt s idx, vals)

/-- Go `percentile(vals, p)`: the returned value (`none` for a panic). -/
def percentile (vals : List Int) (p : ℚ) : Option Int :=
  (percentileRun vals p).1

/-! ## secondBucket and slidingWindow (metrics.go) -/

/-- Go `type secondBucket struct`. -/
structure secondBucket where
  Requests : Int
  Success : Int
  Errors : Int
  Timeouts : Int
  LatencyTotalMs : Int
  deriving DecidableEq, Repr

/-- Go `&secondBucket{}`: every field zero. -/
def secondBucket.zero : secondBucket :=
  { Requests := 0, Success := 0, Errors := 0, Timeouts := 0, LatencyTotalMs := 0 }

/-- Go `map[int64]*secondBucket`, as an association list read through `mapGet`. -/
abbrev BucketMap := List (Int × secondBucket)

/-- Go `m[k]`: the bucket stored under `k`, or `none` for the nil pointer. -/
def mapGet : BucketMap → Int → Option secondBucket
  | [], _ => none
  | (k1, b) :: rest, k => if k1 = k then some b else mapGet rest k

/-- Go `m[k] = b`. -/
def mapPut : BucketMap → Int → secondBucket → BucketMap
  | [], k, b => [(k, b)]
  | (k1, b1) :: rest, k, b => if k1 = k then (k, b) :: rest else (k1, b1) :: mapPut rest k b

/-- Go `for k := range m { if k < cut { delete(m, k) } }`. -/
def mapEvict (m : BucketMap) (cut : Int) : BucketMap :=
  m.filter fun kv => !decide (kv.1 < cut)

/-- Go `type slidingWindow struct { window map[int64]*secondBucket; span int }`. -/
structure slidingWindow where
  window : BucketMap
  span : Int
  deriving DecidableEq, Repr

/-- Go `newSlidingWindow(span)`. -/
def newSlidingWindow (span : Int) : slidingWindow :=
  { window := [], span := span }

/-- The counter updates that `add` applies to the bucket of the current second. -/
def secondBucket.bump (b : secondBucket) (latencyMs : Int) (ok isTimeout : Bool) :
    secondBucket :=
  let b := { b with Requests := b.Requests + 1 }
  let b :=
    if ok then { b with Success := b.Success + 1 }
    else if isTimeout then { b with Timeouts := b.Timeouts + 1 }
    else { b with Errors := b.Errors + 1 }
  { b with LatencyTotalMs := b.LatencyTotalMs + latencyMs }

/-- Go `(*slidingWindow).add(now, latencyMs, ok, isTimeout)`; `sec` is `now.Unix()`. -/
def slidingWindow.add (w : slidingWindow) (sec : Int) (latencyMs : Int)
    (ok isTimeout : Bool) : slidingWindow :=
  let b :=
    match mapGet w.window sec with
    | some b => b
    | none => secondBucket.zero
  let window := mapPut w.window sec (b.bump latencyMs ok isTimeout)
  let cut := sec - w.span
  { w with window := mapEvict window cut }

/-- The six parallel series returned by `(*slidingWindow).snapshot`. -/
structure Series where
  secs : List Int
  rps : List Int
  avgLatency : List Int
  succ : List Int
  errs : List Int
  timeouts : List Int
  deriving DecidableEq, Repr

/-- The six nil slices. -/
def Series.nil : Series :=
  { secs := [], rps := [], avgLatency := [], succ := [], errs := [], timeouts := [] }

/-- Appends one data point to the six series. -/
def Series.push (acc : Series) (s rps avg succ errs timeouts : Int) : Series :=
  { secs := acc.secs ++ [s], rps := acc.rps ++ [rps], avgLatency := acc.avgLatency ++ [avg],
    succ := acc.succ ++ [succ], errs := acc.errs ++ [errs],
    timeouts := acc.timeouts ++ [timeouts] }

/-- The body of the loop of `snapshot` for the second `s`. -/
def snapshotStep (w : slidingWindow) (acc : Series) (s : Int) : Series :=
  match mapGet w.window s with
  | none => acc.push s 0 0 0 0 0
  | some b =>
    acc.push s b.Requests
      (if b.Requests > 0 then b.LatencyTotalMs.tdiv b.Requests else 0)
      b.Success b.Errors b.Timeouts

/-- Go `for s := start; s <= end; s++ { ... }`, unrolled at most `fuel` times. -/
def snapshotLoop (w : slidingWindow) (last : Int) : Nat → Int → Series → Series
  | 0, _, acc => acc
  | fuel + 1, s, acc =>
    if s ≤ last then snapshotLoop w last fuel (s + 1) (snapshotStep w acc s) else acc

/-- Go `(*slidingWindow).snapshot()`; `now` is the value of `time.Now().Unix()` read
inside the call. The loop runs `end - start + 1` times, which is the fuel given. -/
def slidingWindow.snapshot (w : slidingWindow) (now : Int) : Series :=
  if w.window.length = 0 then Series.nil
  else
    let last := now
    let start := last - w.span + 1
    snapshotLoop w last (last - start + 1).toNat start Series.nil

/-- Go `(*slidingWindow).snapshot()` with the receiver after the call: the body reads
`w.window[s]` and `w.span` and assigns to neither. -/
def slidingWindow.snapshotRun (w : slidingWindow) (now : Int) : Series × slidingWindow :=
  (w.snapshot now, w)

/-- The five values that the loop of `snapshot` appends for the second `s`, after `s`. -/
def pointValues (w : slidingWindow) (s : Int) : Int × Int × Int × Int × Int :=
  match mapGet w.window s with
  | none => (0, 0, 0, 0, 0)
  | some b =>
    (b.Requests, if b.Requests > 0 then b.LatencyTotalMs.tdiv b.Requests else 0,
     b.Success, b.Errors, b.Timeouts)

/-- A sequence of `add(sec, latencyMs, ok, isTimeout)` calls on a window, in order. -/
def slidingWindow.addAll (w : slidingWindow) : List (Int × Int × Bool × Bool) → slidingWindow
  | [] => w
  | x :: rest => (w.add x.1 x.2.1 x.2.2.1 x.2.2.2).addAll rest

/-! ## Night-block window (config.go) -/

/-- Go `type TimeOfDay struct { Start, End string }`, each string as its bytes. -/
structure TimeOfDay where
  Start : List Nat
  End : List Nat
  deriving DecidableEq, Repr

/-- Go `type LineConfig struct`. -/
structure LineConfig where
  Name : String
  Enabled : Bool
  BaseLatencyMs : Int
  JitterMs : Int
  ErrorRate : ℚ
  TimeoutRate : ℚ
  TimeoutMs : Int
  NightBlockEnabled : Bool
  NightBlockWindow : TimeOfDay
  deriving DecidableEq, Repr

/-- Go `int(a - b)` for two bytes: the difference wraps modulo 256 before it is widened. -/
def byteDiff (a b : Nat) : Int :=
  (((a % 256 + 256 - b % 256) % 256 : Nat) : Int)

/-- Go `parseClock(s)`. A string of length 5 is matched as its five bytes; 58 is `':'`
and 48 is `'0'`. -/
def parseClock (s : List Nat) : Int × Int :=
  match s with
  | [c0, c1, c2, c3, c4] =>
    if c2 ≠ 58 then (0, 0)
    else
      let h := byteDiff c0 48 * 10 + byteDiff c1 48
      let m := byteDiff c3 48 * 10 + byteDiff c4 48
      if h < 0 ∨ h > 23 ∨ m < 0 ∨ m > 59 then (0, 0) else (h, m)
  | _ => (0, 0)

/-- The zero-padded `"HH:MM"` rendering of an hour and a minute, as bytes. -/
def hhmm (h m : Nat) : List Nat :=
  [48 + h / 10, 48 + h % 10, 58, 48 + m / 10, 48 + m % 10]

/-- The wall-clock reading of a `time.Time` within its own calendar day. -/
structure Clock where
  hour : Nat
  minute : Nat
  second : Nat
  nsec : Nat
  deriving DecidableEq, Repr

/-- Nanoseconds from local midnight to the instant `t`. -/
def Clock.nanos (t : Clock) : Int :=
  (((t.hour : Int) * 60 + t.minute) * 60 + t.second) * 1000000000 + t.nsec

/-- Go `time.Date(now.Year(), now.Month(), now.Day(), h, m, 0, 0, now.Location())`, as
nanoseconds from the local midnight of `now`'s day, for a location whose clock does not
change on that day; `goDate` is the general form. -/
def dateAt (h m : Int) : Int :=
  ((h * 60 + m) * 60) * 1000000000

/-- Go `inWindow(now, w)` for a `now` whose location has no clock change on that day,
by wall-clock readings; `inWindowAt` is the general form, by instants. -/
def inWindow (now : Clock) (w : TimeOfDay) : Bool :=
  let hm1 := parseClock w.Start
  let hm2 := parseClock w.End
  let start := dateAt hm1.1 hm1.2
  let stop := dateAt hm2.1 hm2.2
  if !decide (stop > start) then
    decide (now.nanos = start) || decide (now.nanos > start) || decide (now.nanos < stop)
  else
    (decide (now.nanos = start) || decide (now.nanos > start)) && decide (now.nanos < stop)

/-- A `*time.Location` as it matters around one calendar date: the UTC offset in force
(seconds east of UTC) and at most one clock change. Instants are counted in seconds from
00:00:00 UTC of that date. -/
structure Location where
  /-- The offset before the change, or all along. -/
  offset : Int
  /-- The instant of the change and the offset from then on. -/
  change : Option (Int × Int)
  deriving DecidableEq, Repr

/-- A location without clock change. -/
def Location.fixed (offset : Int) : Location :=
  { offset := offset, change := none }

/-- `America/New_York` on 2026-03-08: UTC-5 until 07:00:00 UTC (02:00 local), UTC-4 from
then on, so the wall clock skips from 02:00 to 03:00. -/
def newYorkSpringForward : Location :=
  { offset := -18000, change := some (25200, -14400) }

/-- Go `(*Location).lookup(sec)`: the offset in force at the instant `sec`, with the start
and the end of that zone period (`none` where the period is unbounded). -/
def Location.lookup (l : Location) (sec : Int) : Int × Option Int × Option Int :=
  match l.change with
  | none => (l.offset, none, none)
  | some c => if sec < c.1 then (l.offset, none, some c.1) else (c.2, some c.1, none)

/-- Go `time.Date(y, mo, d, h, m, 0, 0, loc)` as an instant, in seconds from 00:00:00 UTC
of the date `y-mo-d`: the wall reading is first taken as UTC, then corrected by the offset
found for it, looked up once more when the corrected instant leaves that zone period. -/
def goDate (l : Location) (h m : Int) : Int :=
  let unix := (h * 60 + m) * 60
  let zone := l.lookup unix
  if zone.1 ≠ 0 then
    let utc := unix - zone.1
    let before :=
      match zone.2.1 with
      | some start => decide (utc < start)
      | none => false
    let after :=
      match zone.2.2 with
      | some stop => decide (utc ≥ stop)
      | none => false
    let offset := if before || after then (l.lookup utc).1 else zone.1
    unix - offset
  else unix

/-- A Go `time.Time`: its wall-clock reading, the UTC offset in force at that instant
(seconds east of UTC) and its location. -/
structure Time where
  wall : Clock
  offset : Int
  loc : Location
  deriving DecidableEq, Repr

/-- The instant of `t` in nanoseconds from 00:00:00 UTC of `t`'s calendar date. -/
def Time.unixNano (t : Time) : Int :=
  ((((t.wall.hour : Int) * 60 + t.wall.minute) * 60 + t.wall.second) - t.offset)
    * 1000000000 + t.wall.nsec

/-- Go `inWindow(now, w)`: `start` and `end` are built by `time.Date` on `now`'s calendar
date in `now`'s location and compared with `now` as instants. -/
def inWindowAt (now : Time) (w : TimeOfDay) : Bool :=
  let hm1 := parseClock w.Start
  let hm2 := parseClock w.End
  let start := goDate now.loc hm1.1 hm1.2 * 1000000000
  let stop := goDate now.loc hm2.1 hm2.2 * 1000000000
  if !decide (stop > start) then
    decide (now.unixNano = start) || decide (now.unixNano > start)
      || decide (now.unixNano < stop)
  else
    (decide (now.unixNano = start) || decide (now.unixNano > start))
      && decide (now.unixNano < stop)

/-! ## Server.simulate (server.go) -/

/-- What one call of `simulate` reads from its surroundings. Each field is the value
obtained at the corresponding place of the body if that place is reached. -/
structure SimEnv where
  /-- `time.Now()` in the night-block check. -/
  now : Clock
  /-- `s.rng.Intn(cfg.JitterMs*2+1)`. -/
  jitterDraw : Int
  /-- `s.rng.Float64()` of the timeout roll. -/
  timeoutRoll : ℚ
  /-- `s.rng.Float64()` of the error roll. -/
  errorRoll : ℚ
  /-- Whether `ctx.Done()` wins the `select` of the timeout wait. -/
  cancelInTimeoutWait : Bool
  /-- Whether `ctx.Done()` wins the `select` of the normal wait. -/
  cancelInNormalWait : Bool
  /-- `start.Unix()`, the second under which the sample is recorded. -/
  startSec : Int
  /-- `int(time.Since(start).Milliseconds())` at the `record` call. -/
  elapsedMs : Int
  /-- The UTC offset in force at `now`, in seconds east of UTC. -/
  nowOffset : Int := 0
  /-- The location of `now`. -/
  loc : Location := Location.fixed 0

/-- The observable steps of one `simulate` call, in program order. -/
inductive Effect where
  /-- `s.rng.Intn(n)`. -/
  | intn (n : Int)
  /-- `s.rng.Float64()`. -/
  | float64
  /-- A `select` on `time.After(time.Duration(ms) * time.Millisecond)` and `ctx.Done()`. -/
  | wait (ms : Int)
  /-- `s.record(id, start, latencyMs, ok, isTimeout)`, with `start` as its unix second. -/
  | record (startSec latencyMs : Int) (ok isTimeout : Bool)
  deriving DecidableEq, Repr

/-- The HTTP status and the payload fields `OK` and `Error` returned by `simulate`, with
the steps it performed. The measured latency that is also returned is `elapsedMs`. -/
structure SimResult where
  status : Nat
  ok : Bool
  error : String
  effects : List Effect
  deriving DecidableEq, Repr

/-- The `// Base + jitter` block of `simulate` over unbounded integers: the target delay
and the draw made. `targetDelay64` is the same block in 64-bit arithmetic. -/
def targetDelay (cfg : LineConfig) (env : SimEnv) : Int × List Effect :=
  let delay := cfg.BaseLatencyMs
  if cfg.JitterMs > 0 then
    let j := env.jitterDraw - cfg.JitterMs
    if delay + j ≥ 0 then (delay + j, [Effect.intn (cfg.JitterMs * 2 + 1)])
    else (delay, [Effect.intn (cfg.JitterMs * 2 + 1)])
  else (delay, [])

/-- Go `(*Server).simulate`, as the decision procedure over `cfg` and `env`, with unbounded
integers and wall-clock readings. `simulate64` is the same procedure with 64-bit integers
and instants; the two agree when no sum or product leaves the 64-bit range and the clock
of `now`'s location does not change on that day. -/
def simulate (cfg : LineConfig) (env : SimEnv) : SimResult :=
  if cfg.NightBlockEnabled && inWindow env.now cfg.NightBlockWindow then
    { status := 503, ok := false, error := "nightly window blocked",
      effects := [Effect.record env.startSec env.elapsedMs false false] }
  else if !cfg.Enabled then
    { status := 503, ok := false, error := "line disabled",
      effects := [Effect.record env.startSec env.elapsedMs false false] }
  else
    let delay := (targetDelay cfg env).1
    let fx := (targetDelay cfg env).2
    -- `cfg.TimeoutRate > 0 && s.rng.Float64() < cfg.TimeoutRate` draws only past the `&&`
    let fx := if cfg.TimeoutRate > 0 then fx ++ [Effect.float64] else fx
    if cfg.TimeoutRate > 0 ∧ env.timeoutRoll < cfg.TimeoutRate then
      let fx := fx ++ [Effect.wait cfg.TimeoutMs]
      if env.cancelInTimeoutWait then
        { status := 504, ok := false, error := "client cancelled",
          effects := fx ++ [Effect.record env.startSec env.elapsedMs false true] }
      else
        { status := 504, ok := false, error := "simulated timeout",
          effects := fx ++ [Effect.record env.startSec env.elapsedMs false true] }
    else
      let fx := fx ++ [Effect.wait delay]
      if env.cancelInNormalWait then
        { status := 504, ok := false, error := "client cancelled",
          effects := fx ++ [Effect.record env.startSec env.elapsedMs false true] }
      else
        let fx := if cfg.ErrorRate > 0 then fx ++ [Effect.float64] else fx
        if cfg.ErrorRate > 0 ∧ env.errorRoll < cfg.ErrorRate then
          { status := 502, ok := false, error := "simulated upstream error",
            effects := fx ++ [Effect.record env.startSec env.elapsedMs false false] }
        else
          { status := 200, ok := true, error := "",
            effects := fx ++ [Effect.record env.startSec env.elapsedMs true false] }

/-! ## LineMetrics (metrics.go) -/

/-- How a call ends when it does not return to its caller. -/
inductive Abort where
  /-- `Lock` on a mutex that is held: the caller waits. -/
  | blocked
  /-- A run-time panic. -/
  | panic
  /-- A fatal error of the Go runtime: the process is aborted. -/
  | fatal (msg : String)
  deriving DecidableEq, Repr

/-- Go `(*sync.Mutex).Lock` on the held bit: needs the mutex free and leaves it held. -/
def mutexLock (held : Bool) : Except Abort Bool :=
  if held then Except.error Abort.blocked else Except.ok true

/-- Go `(*sync.Mutex).Unlock` on the held bit: needs the mutex held and leaves it free;
on a free mutex the runtime stops with `fatal error: sync: unlock of unlocked mutex`. -/
def mutexUnlock (held : Bool) : Except Abort Bool :=
  if held then Except.ok false
  else Except.error (Abort.fatal "sync: unlock of unlocked mutex")

/-- Go `type LineMetrics struct`; `mu` is true while the mutex is held. `Ring` and `Win`
stand for the objects the two pointers refer to. -/
structure LineMetrics where
  Requests : Int
  Success : Int
  Errors : Int
  Timeouts : Int
  P50 : Int
  P95 : Int
  P99 : Int
  Ring : latencyRing
  Win : slidingWindow
  mu : Bool
  deriving DecidableEq, Repr

/-- Go `newLineMetrics()`: zero counters and percentiles, a ring of 1024 cells, a window
of 60 seconds, and the zero value of `sync.Mutex` (free). -/
def newLineMetrics : LineMetrics :=
  { Requests := 0, Success := 0, Errors := 0, Timeouts := 0, P50 := 0, P95 := 0, P99 := 0,
    Ring := newLatencyRing 1024, Win := newSlidingWindow 60, mu := false }

/-- The statements of `(*LineMetrics).addSample` between `Lock` and the deferred
`Unlock`; `sec` is `now.Unix()`. -/
def LineMetrics.addSampleBody (m : LineMetrics) (sec latencyMs : Int) (ok isTimeout : Bool) :
    Option LineMetrics :=
  let m := { m with Requests := m.Requests + 1 }
  let m :=
    if ok then { m with Success := m.Success + 1 }
    else if isTimeout then { m with Timeouts := m.Timeouts + 1 }
    else { m with Errors := m.Errors + 1 }
  match m.Ring.add latencyMs with
  | none => none
  | some ring =>
    let win := m.Win.add sec latencyMs ok isTimeout
    match ring.snapshot with
    | none => none
    | some vals =>
      match percentile vals 50, percentile vals 95, percentile vals 99 with
      | some p50, some p95, some p99 =>
        some { m with Ring := ring, Win := win, P50 := p50, P95 := p95, P99 := p99 }
      | _, _, _ => none

/-- Go `(*LineMetrics).addSample(now, latencyMs, ok, isTimeout)`: `m.mu.Lock()`, the
body, and the deferred `m.mu.Unlock()`. -/
def LineMetrics.addSample (m : LineMetrics) (sec latencyMs : Int) (ok isTimeout : Bool) :
    Except Abort LineMetrics :=
  match mutexLock m.mu with
  | Except.error e => Except.error e
  | Except.ok held =>
    match ({ m with mu := held }).addSampleBody sec latencyMs ok isTimeout with
    | none => Except.error Abort.panic
    | some m1 =>
      match mutexUnlock m1.mu with
      | Except.error e => Except.error e
      | Except.ok free => Except.ok { m1 with mu := free }

/-- The statement `*m = *newLineMetrics()` of `(*LineMetrics).reset`: every field of
`*m` is overwritten by the field of the fresh value, the mutex `mu` included. -/
def LineMetrics.resetBody (_m : LineMetrics) : LineMetrics :=
  newLineMetrics

/-- Go `(*LineMetrics).reset()`: `m.mu.Lock()`, the assignment, and the deferred
`m.mu.Unlock()`. -/
def LineMetrics.reset (m : LineMetrics) : Except Abort LineMetrics :=
  match mutexLock m.mu with
  | Except.error e => Except.error e
  | Except.ok held =>
    let m1 := ({ m with mu := held }).resetBody
    match mutexUnlock m1.mu with
    | Except.error e => Except.error e
    | Except.ok free => Except.ok { m1 with mu := free }

/-- One call on a `LineMetrics`. -/
inductive MetricsOp where
  | addSample (sec latencyMs : Int) (ok isTimeout : Bool)
  | reset
  deriving DecidableEq, Repr

/-- A sequence of calls on one `LineMetrics`, in order. -/
def LineMetrics.runOps (m : LineMetrics) : List MetricsOp → Except Abort LineMetrics
  | [] => Except.ok m
  | MetricsOp.addSample sec latencyMs ok isTimeout :: rest =>
    match m.addSample sec latencyMs ok isTimeout with
    | Except.error e => Except.error e
    | Except.ok m1 => m1.runOps rest
  | MetricsOp.reset :: rest =>
    match m.reset with
    | Except.error e => Except.error e
    | Except.ok m1 => m1.runOps rest

/-! ## Server.simulate on 64-bit integers (server.go) -/

/-- The value of a Go `int` after an operation whose exact result is `x`: two's complement
on 64 bits. -/
def wrap64 (x : Int) : Int :=
  (x + 9223372036854775808) % 18446744073709551616 - 9223372036854775808

/-- The values of a Go `int`. -/
def isInt64 (x : Int) : Prop :=
  -9223372036854775808 ≤ x ∧ x < 9223372036854775808

/-- The `time.Time` read by the night-block check. -/
def SimEnv.time (env : SimEnv) : Time :=
  { wall := env.now, offset := env.nowOffset, loc := env.loc }

/-- The `// Base + jitter` block of `simulate` on 64-bit integers. `rng.Intn(n)` panics
(`invalid argument to Intn`) when `n ≤ 0`. -/
def targetDelay64 (cfg : LineConfig) (env : SimEnv) : Except Abort (Int × List Effect) :=
  let delay := cfg.BaseLatencyMs
  if cfg.JitterMs > 0 then
    let n := wrap64 (wrap64 (cfg.JitterMs * 2) + 1)
    if n ≤ 0 then Except.error Abort.panic
    else
      let j := wrap64 (env.jitterDraw - cfg.JitterMs)
      if wrap64 (delay + j) ≥ 0 then Except.ok (wrap64 (delay + j), [Effect.intn n])
      else Except.ok (delay, [Effect.intn n])
  else Except.ok (delay, [])

/-- The part of `simulate` from the timeout roll on, for the target delay `delay` and the
steps `fx` made so far. -/
def simulateTail (cfg : LineConfig) (env : SimEnv) (delay : Int) (fx : List Effect) :
    SimResult :=
  -- `cfg.TimeoutRate > 0 && s.rng.Float64() < cfg.TimeoutRate` draws only past the `&&`
  let fx := if cfg.TimeoutRate > 0 then fx ++ [Effect.float64] else fx
  if cfg.TimeoutRate > 0 ∧ env.timeoutRoll < cfg.TimeoutRate then
    let fx := fx ++ [Effect.wait cfg.TimeoutMs]
    if env.cancelInTimeoutWait then
      { status := 504, ok := false, error := "client cancelled",
        effects := fx ++ [Effect.record env.startSec env.elapsedMs false true] }
    else
      { status := 504, ok := false, error := "simulated timeout",
        effects := fx ++ [Effect.record env.startSec env.elapsedMs false true] }
  else
    let fx := fx ++ [Effect.wait delay]
    if env.cancelInNormalWait then
      { status := 504, ok := false, error := "client cancelled",
        effects := fx ++ [Effect.record env.startSec env.elapsedMs false true] }
    else
      let fx := if cfg.ErrorRate > 0 then fx ++ [Effect.float64] else fx
      if cfg.ErrorRate > 0 ∧ env.errorRoll < cfg.ErrorRate then
        { status := 502, ok := false, error := "simulated upstream error",
          effects := fx ++ [Effect.record env.startSec env.elapsedMs false false] }
      else
        { status := 200, ok := true, error := "",
          effects := fx ++ [Effect.record env.startSec env.elapsedMs true false] }

/-- Go `(*Server).simulate` on 64-bit integers and instants: the result and the steps of
a call that returns, or the panic of `rng.Intn`. -/
def simulate64 (cfg : LineConfig) (env : SimEnv) : Except Abort SimResult :=
  if cfg.NightBlockEnabled && inWindowAt env.time cfg.NightBlockWindow then
    Except.ok
      { status := 503, ok := false, error := "nightly window blocked",
        effects := [Effect.record env.startSec env.elapsedMs false false] }
  else if !cfg.Enabled then
    Except.ok
      { status := 503, ok := false, error := "line disabled",
        effects := [Effect.record env.startSec env.elapsedMs false false] }
  else
    match targetDelay64 cfg env with
    | Except.error e => Except.error e
    | Except.ok d => Except.ok (simulateTail cfg env d.1 d.2)

/-! ## Server (server.go) -/

/-- Go `type LineID string`. -/
abbrev LineID := String

/-- Go `AllLines`. -/
def AllLines : List LineID :=
  ["outer-unified", "inner-unified", "outer-zf", "inner-zf"]

/-- The `metrics map[LineID]*LineMetrics` of Go `type Server struct`: the object a line's
pointer refers to, `none` for a line without entry. -/
structure Server where
  metrics : LineID → Option LineMetrics

/-- Go `NewServer()`: one fresh `LineMetrics` per line of `AllLines`. -/
def NewServer : Server :=
  { metrics := fun id => if id ∈ AllLines then some newLineMetrics else none }

/-- Go `(*Server).record(id, start, latencyMs, ok, isTimeout)`; `startSec` is
`start.Unix()`. -/
def Server.record (s : Server) (id : LineID) (startSec latencyMs : Int) (ok isTimeout : Bool) :
    Except Abort Server :=
  match s.metrics id with
  | none => Except.ok s
  | some m =>
    match m.addSample startSec latencyMs ok isTimeout with
    | Except.error e => Except.error e
    | Except.ok m1 => Except.ok { s with metrics := Function.update s.metrics id (some m1) }

/-- The steps of one `simulate` call carried out on the server: only `record` touches it. -/
def Server.applyEffects (s : Server) (id : LineID) : List Effect → Except Abort Server
  | [] => Except.ok s
  | Effect.record startSec latencyMs ok isTimeout :: rest =>
    match s.record id startSec latencyMs ok isTimeout with
    | Except.error e => Except.error e
    | Except.ok s1 => s1.applyEffects id rest
  | _ :: rest => s.applyEffects id rest

/-- Go `(*Server).simulate(ctx, id, cfg, resource)`: the procedure `simulate64` together
with its `record` calls on the metrics of line `id`. A panic of `rng.Intn` comes before
any `record`. -/
def Server.simulate (s : Server) (id : LineID) (cfg : LineConfig) (env : SimEnv) :
    Except Abort (SimResult × Server) :=
  match simulate64 cfg env with
  | Except.error e => Except.error e
  | Except.ok r =>
    match s.applyEffects id r.effects with
    | Except.error e => Except.error e
    | Except.ok s1 => Except.ok (r, s1)

/-- The call `m.reset()` on the `LineMetrics` of line `id`. -/
def Server.resetLine (s : Server) (id : LineID) : Except Abort Server :=
  match s.metrics id with
  | none => Except.ok s
  | some m =>
    match m.reset with
    | Except.error e => Except.error e
    | Except.ok m1 => Except.ok { s with metrics := Function.update s.metrics id (some m1) }

/-- The loop `for _, m := range s.metrics { m.reset() }` of Go
`(*Server).handleResetMetrics`, over the given keys of the map. -/
def Server.resetLines (s : Server) : List LineID → Except Abort Server
  | [] => Except.ok s
  | id :: rest =>
    match s.resetLine id with
    | Except.error e => Except.error e
    | Except.ok s1 => s1.resetLines rest

/-- Whether a step of `simulate` is a `record` call. -/
def Effect.isRecord : Effect → Bool
  | Effect.record _ _ _ _ => true
  | _ => false

/-- The calls `addSample(sec, latencyMs, ok, isTimeout)` for a list of samples. -/
def sampleOps (l : List (Int × Int × Bool × Bool)) : List MetricsOp :=
  l.map fun x => MetricsOp.addSample x.1 x.2.1 x.2.2.1 x.2.2.2

/-- The latencies of a list of samples, in order. -/
def sampleLatencies (l : List (Int × Int × Bool × Bool)) : List Int :=
  l.map fun x => x.2.1

/-- What the loop invariants of a recorder say: mutex free, ring as left by the writes
`xs` into a fresh ring of 1024 cells, and the counters adding up. -/
def MetricsInv (xs : List Int) (m : LineMetrics) : Prop :=
  m.mu = false ∧ RingInv 1024 xs m.Ring ∧ m.Requests = m.Success + m.Errors + m.Timeouts

/-- The `LineInnerUnified` entry of Go `defaultConfig()`. -/
def defaultInnerUnified : LineConfig :=
  { Name := "内网统一 (inner-unified)",
    Enabled := true,
    BaseLatencyMs := 80,
    JitterMs := 40,
    ErrorRate := 2 / 100,
    TimeoutRate := 1 / 100,
    TimeoutMs := 15000,
    NightBlockEnabled := true,
    NightBlockWindow := { Start := hhmm 0 30, End := hhmm 6 0 } }

/-- An environment for examples: 03:00:00 local time, mid-range draws, no cancellation. -/
def sampleEnv : SimEnv :=
  { now := { hour := 3, minute := 0, second := 0, nsec := 0 },
    jitterDraw := 10,
    timeoutRoll := 1 / 2,
    errorRoll := 1 / 2,
    cancelInTimeoutWait := false,
    cancelInNormalWait := false,
    startSec := 1700000000,
    elapsedMs := 0 }

/-! # Theorems -/

/-! ## latencyRing -/

theorem copySlice_same_length (dst src : List Int) (h : dst.length = src.length) :
    copySlice dst src = src := by
  simp [copySlice, h]

theorem rot_set_step_aux (A B : List Int) (o v : Int) :
    ((A ++ o :: B).set A.length v).drop ((A.length + 1) % (A ++ o :: B).length)
        ++ ((A ++ o :: B).set A.length v).take ((A.length + 1) % (A ++ o :: B).length)
      = ((A ++ o :: B).drop A.length ++ (A ++ o :: B).take A.length).tail ++ [v] := by
  have hset : (A ++ o :: B).set A.length v = A ++ v :: B := by
    rw [List.set_append_right _ _ (Nat.le_refl _)]
    simp
  have hlen : (A ++ o :: B).length = A.length + 1 + B.length := by
    simp; omega
  rw [hset, hlen]
  cases B with
  | nil => simp
  | cons b B' =>
    have hmod : (A.length + 1) % (A.length + 1 + (b :: B').length) = A.length + 1 := by
      apply Nat.mod_eq_of_lt
      simp
    rw [hmod]
    have h1 : (A ++ v :: b :: B').drop (A.length + 1) = b :: B' := by
      have : A ++ v :: b :: B' = (A ++ [v]) ++ b :: B' := by simp
      rw [this, List.drop_left' (by simp)]
    have h2 : (A ++ v :: b :: B').take (A.length + 1) = A ++ [v] := by
      have : A ++ v :: b :: B' = (A ++ [v]) ++ b :: B' := by simp
      rw [this, List.take_left' (by simp)]
    rw [h1, h2]
    simp

theorem rot_set_step (l : List Int) (i : Nat) (v : Int) (hi : i < l.length) :
    (l.set i v).drop ((i + 1) % l.length) ++ (l.set i v).take ((i + 1) % l.length)
      = (l.drop i ++ l.take i).tail ++ [v] := by
  have hl : l = l.take i ++ l[i] :: l.drop (i + 1) := by
    conv_lhs => rw [← List.take_append_drop i l, List.drop_eq_getElem_cons hi]
  have hA : (l.take i).length = i := by
    simp [Nat.min_eq_left (Nat.le_of_lt hi)]
  have key := rot_set_step_aux (l.take i) (l.drop (i + 1)) l[i] v
  rw [← hl, hA] at key
  exact key

theorem RingInv_new (C : Nat) : RingInv C [] (newLatencyRing C) := by
  simp [RingInv, newLatencyRing, latencyRing.rot]

theorem RingInv_add (C : Nat) (hC : 0 < C) (xs : List Int) (r : latencyRing) (v : Int)
    (h : RingInv C xs r) : ∃ r1, r.add v = some r1 ∧ RingInv C (xs ++ [v]) r1 := by
  obtain ⟨hlen, hpos, hcount, hrot⟩ := h
  have hlt : r.pos < r.vals.length := by
    rw [hpos, hlen]; exact Nat.mod_lt _ hC
  refine ⟨_, by simp only [latencyRing.add, hlt, if_true]; rfl, ?_⟩
  refine ⟨by simp [hlen], ?_, ?_, ?_⟩
  · simp only [List.length_set, hlen, hpos, List.length_append, List.length_singleton]
    exact (Nat.add_mod _ _ _).symm ▸ by simp [Nat.add_mod]
  · simp only [List.length_set, hlen, hcount, List.length_append, List.length_singleton]
    split <;> omega
  · show ((r.vals.set r.pos v).drop ((r.pos + 1) % (r.vals.set r.pos v).length)
        ++ (r.vals.set r.pos v).take ((r.pos + 1) % (r.vals.set r.pos v).length)) = _
    rw [List.length_set, rot_set_step _ _ _ hlt]
    have hrot1 : r.vals.drop r.pos ++ r.vals.take r.pos
        = (List.replicate C 0 ++ xs).drop xs.length := hrot
    rw [hrot1, List.tail_drop, ← List.append_assoc, List.length_append, List.length_singleton]
    have hle : xs.length + 1 ≤ (List.replicate C (0 : Int) ++ xs).length := by
      simp only [List.length_append, List.length_replicate]; omega
    exact (List.drop_append_of_le_length hle).symm

theorem RingInv_addAll (C : Nat) (hC : 0 < C) (ys xs : List Int) (r : latencyRing)
    (h : RingInv C xs r) : ∃ r1, r.addAll ys = some r1 ∧ RingInv C (xs ++ ys) r1 := by
  induction ys generalizing xs r with
  | nil => exact ⟨r, rfl, by simpa using h⟩
  | cons y ys ih =>
    obtain ⟨r1, hadd, hinv⟩ := RingInv_add C hC xs r y h
    obtain ⟨r2, hall, hinv2⟩ := ih (xs ++ [y]) r1 hinv
    refine ⟨r2, ?_, by simpa using hinv2⟩
    simp [latencyRing.addAll, hadd, hall]

theorem RingInv_snapshot (C : Nat) (hC : 0 < C) (xs : List Int) (r : latencyRing)
    (h : RingInv C xs r) : r.snapshot = some (xs.drop (xs.length - C)) := by
  obtain ⟨hlen, hpos, hcount, hrot⟩ := h
  have hrot1 : r.vals.drop r.pos ++ r.vals.take r.pos
      = (List.replicate C 0 ++ xs).drop xs.length := hrot
  rcases Nat.lt_or_ge xs.length C with hN | hN
  · -- the ring is not full yet: the first `count` cells are the writes
    have hc : r.count = xs.length := by rw [hcount]; exact Nat.min_eq_left (Nat.le_of_lt hN)
    have hp : r.pos = xs.length := by rw [hpos]; exact Nat.mod_eq_of_lt hN
    have htake : r.vals.take xs.length = xs := by
      rw [hp, List.drop_append_of_le_length (by simp; omega)] at hrot1
      have hl : (r.vals.drop xs.length).length
          = ((List.replicate C (0 : Int)).drop xs.length).length := by simp [hlen]
      exact (List.append_inj hrot1 hl).2
    have hsub : xs.length - C = 0 := by omega
    simp only [latencyRing.snapshot, hc, hlen, hN, if_true, sliceTo, Nat.le_of_lt hN,
      Option.map_some', htake, hsub, List.drop_zero]
    rw [copySlice_same_length _ _ (by simp)]
  · -- the ring is full: cells from the cursor on, then the cells before it
    have hc : r.count = C := by rw [hcount]; exact Nat.min_eq_right hN
    have hp : r.pos < C := by rw [hpos]; exact Nat.mod_lt _ hC
    have hdrop : (List.replicate C (0 : Int) ++ xs).drop xs.length
        = xs.drop (xs.length - C) := by
      rw [List.drop_append_eq_append_drop]
      simp [List.drop_eq_nil_of_le, hN]
    have h1 : copySlice (List.replicate C 0) (r.vals.drop r.pos)
        = r.vals.drop r.pos ++ List.replicate r.pos 0 := by
      have hm : min C (C - r.pos) = C - r.pos := Nat.min_eq_right (Nat.sub_le _ _)
      simp only [copySlice, List.length_replicate, List.length_drop, hlen, hm,
        List.drop_replicate]
      rw [List.take_of_length_le (by simp [hlen])]
      congr 2
      omega
    have h2 : copyAt (r.vals.drop r.pos ++ List.replicate r.pos 0) (C - r.pos)
        (r.vals.take r.pos) = some (r.vals.drop r.pos ++ r.vals.take r.pos) := by
      have hl : (r.vals.drop r.pos).length = C - r.pos := by simp [hlen]
      have hk : C - r.pos ≤ (r.vals.drop r.pos ++ List.replicate r.pos (0 : Int)).length := by
        simp [hlen]
      simp only [copyAt, hk, if_true]
      rw [List.take_left' hl, List.drop_left' hl,
        copySlice_same_length _ _ (by simp [hlen, Nat.min_eq_left (Nat.le_of_lt hp)])]
    have hnot : ¬ C < C := Nat.lt_irrefl _
    simp only [latencyRing.snapshot, hc, hlen, hnot, if_false, sliceFrom, sliceTo,
      Nat.le_of_lt hp, if_true, Option.some_bind, h1, h2, hrot1, hdrop]

/-- C1. For every capacity `C ≥ 1` and every sequence `xs` of values added to a fresh
ring of capacity `C`, every `add` succeeds and `snapshot` then returns the last
`min (length xs) C` values of `xs` in insertion order (oldest first); its length is
`min (length xs) C`. -/
theorem latencyRing_snapshot_last (C : Nat) (hC : 1 ≤ C) (xs : List Int) :
    ∃ r, (newLatencyRing C).addAll xs = some r ∧
      r.snapshot = some (xs.drop (xs.length - C)) ∧
      (xs.drop (xs.length - C)).length = min xs.length C := by
  obtain ⟨r, hall, hinv⟩ := RingInv_addAll C hC xs [] (newLatencyRing C) (RingInv_new C)
  refine ⟨r, hall, RingInv_snapshot C hC xs r (by simpa using hinv), ?_⟩
  rw [List.length_drop]
  omega

/-- Witness for C1: capacity 3 and five writes keep the last three. -/
theorem latencyRing_snapshot_last_witness :
    ∃ r, (newLatencyRing 3).addAll [10, 20, 30, 40, 50] = some r ∧
      r.snapshot = some [30, 40, 50] ∧ ([30, 40, 50] : List Int).length = 3 :=
  latencyRing_snapshot_last 3 (by decide) [10, 20, 30, 40, 50]

/-! ## float64 rounding -/

theorem roundHalfEven_le (y : ℚ) : (roundHalfEven y : ℚ) ≤ y + 1 / 2 := by
  have h1 := Int.floor_le y
  have h2 := Int.lt_floor_add_one y
  unfold roundHalfEven
  split_ifs <;> push_cast <;> linarith

theorem roundHalfEven_ge (y : ℚ) : y - 1 / 2 ≤ (roundHalfEven y : ℚ) := by
  have h1 := Int.floor_le y
  have h2 := Int.lt_floor_add_one y
  unfold roundHalfEven
  split_ifs <;> push_cast <;> linarith

theorem roundHalfEven_intCast (z : Int) : roundHalfEven (z : ℚ) = z := by
  simp [roundHalfEven]

theorem roundHalfEven_nonneg (y : ℚ) (h : 0 ≤ y) : 0 ≤ roundHalfEven y := by
  have h1 : 0 ≤ ⌊y⌋ := Int.floor_nonneg.mpr h
  unfold roundHalfEven
  split_ifs <;> omega


theorem f64_ulp_half_le (x : ℚ) (hx : 0 < x) :
    (2 : ℚ) ^ (max (Int.log 2 |x|) (-1022) - 52) / 2 ≤ x / 2 ^ 53 + 1 / 2 ^ 1075 := by
  rw [abs_of_pos hx]
  rcases le_total (Int.log 2 x) (-1022) with h | h
  · rw [max_eq_right h]
    have h1 : (2 : ℚ) ^ ((-1022 : ℤ) - 52) / 2 = 1 / 2 ^ 1075 := by
      rw [show ((-1022 : ℤ) - 52) = -(1074 : ℕ) by norm_num, zpow_neg, zpow_natCast]
      rw [show (2 : ℚ) ^ 1075 = 2 ^ 1074 * 2 by rw [pow_succ]]
      field_simp
    rw [h1]
    have : 0 ≤ x / 2 ^ 53 := by positivity
    linarith
  · rw [max_eq_left h]
    have h1 : (2 : ℚ) ^ (Int.log 2 x - 52) / 2 = (2 : ℚ) ^ (Int.log 2 x) / 2 ^ 53 := by
      rw [zpow_sub₀ (by norm_num : (2 : ℚ) ≠ 0), zpow_ofNat, div_div]
      norm_num
    rw [h1]
    have h2 : ((2 : ℕ) : ℚ) ^ Int.log 2 x ≤ x := Int.zpow_log_le_self (by norm_num) hx
    have h3 : (2 : ℚ) ^ Int.log 2 x / 2 ^ 53 ≤ x / 2 ^ 53 := by
      apply div_le_div_of_nonneg_right _ (by positivity)
      exact_mod_cast h2
    have : (0 : ℚ) ≤ 1 / 2 ^ 1075 := by positivity
    linarith

theorem f64round_err (x : ℚ) (hx : 0 ≤ x) :
    |f64round x - x| ≤ x / 2 ^ 53 + 1 / 2 ^ 1075 := by
  by_cases h0 : x = 0
  · subst h0
    simp [f64round]
  · have hpos : 0 < x := lt_of_le_of_ne hx (Ne.symm h0)
    have hu : (0 : ℚ) < (2 : ℚ) ^ (max (Int.log 2 |x|) (-1022) - 52) :=
      zpow_pos (by norm_num) _
    have hle := roundHalfEven_le (x / (2 : ℚ) ^ (max (Int.log 2 |x|) (-1022) - 52))
    have hge := roundHalfEven_ge (x / (2 : ℚ) ^ (max (Int.log 2 |x|) (-1022) - 52))
    have hhalf := f64_ulp_half_le x hpos
    simp only [f64round, h0, if_false]
    generalize (2 : ℚ) ^ (max (Int.log 2 |x|) (-1022) - 52) = u at hu hle hge hhalf ⊢
    generalize (roundHalfEven (x / u) : ℚ) = r at hle hge ⊢
    have h1 : r * u ≤ x + u / 2 := by
      have := mul_le_mul_of_nonneg_right hle (le_of_lt hu)
      rw [add_mul, div_mul_cancel₀ _ (ne_of_gt hu)] at this
      linarith
    have h2 : x - u / 2 ≤ r * u := by
      have := mul_le_mul_of_nonneg_right hge (le_of_lt hu)
      rw [sub_mul, div_mul_cancel₀ _ (ne_of_gt hu)] at this
      linarith
    rw [abs_le]
    constructor <;> linarith

theorem f64round_nonneg (x : ℚ) (hx : 0 ≤ x) : 0 ≤ f64round x := by
  by_cases h0 : x = 0
  · simp [f64round, h0]
  · simp only [f64round, h0, if_false]
    apply mul_nonneg
    · exact_mod_cast roundHalfEven_nonneg _ (div_nonneg hx (le_of_lt (zpow_pos (by norm_num) _)))
    · exact le_of_lt (zpow_pos (by norm_num) _)

theorem f64round_zero : f64round 0 = 0 := by simp [f64round]


theorem f64_log_eq (x : ℚ) (e : ℤ) (hx : 0 < x) (h1 : (2 : ℚ) ^ e ≤ x)
    (h2 : x < (2 : ℚ) ^ (e + 1)) : Int.log 2 |x| = e := by
  rw [abs_of_pos hx]
  have ha : e ≤ Int.log 2 x :=
    (Int.zpow_le_iff_le_log (by norm_num) hx).mp (by exact_mod_cast h1)
  have hb : Int.log 2 x < e + 1 :=
    (Int.lt_zpow_iff_log_lt (by norm_num) hx).mp (by exact_mod_cast h2)
  omega

theorem f64round_eq (x : ℚ) (e r : ℤ) (hx : 0 < x) (h1 : (2 : ℚ) ^ e ≤ x)
    (h2 : x < (2 : ℚ) ^ (e + 1)) (he : -1022 ≤ e)
    (hr : roundHalfEven (x / (2 : ℚ) ^ (e - 52)) = r) :
    f64round x = (r : ℚ) * (2 : ℚ) ^ (e - 52) := by
  have h0 : x ≠ 0 := ne_of_gt hx
  simp only [f64round, h0, if_false, f64_log_eq x e hx h1 h2, max_eq_left he, hr]

theorem f64round_intCast (k : ℤ) (h0 : 0 ≤ k) (hk : k < 2 ^ 53) : f64round (k : ℚ) = k := by
  rcases eq_or_lt_of_le h0 with h | hpos
  · rw [← h]; simp [f64round]
  · have hx : (0 : ℚ) < (k : ℚ) := by exact_mod_cast hpos
    have h1 : (1 : ℚ) ≤ (k : ℚ) := by exact_mod_cast hpos
    have ha : 0 ≤ Int.log 2 (k : ℚ) :=
      (Int.zpow_le_iff_le_log (by norm_num) hx).mp (by simpa using h1)
    have hb : Int.log 2 (k : ℚ) < 53 :=
      (Int.lt_zpow_iff_log_lt (by norm_num) hx).mp (by
        have : (k : ℚ) < 2 ^ 53 := by exact_mod_cast hk
        have h53 : ((2 : ℕ) : ℚ) ^ (53 : ℤ) = 2 ^ 53 := by norm_num
        rw [h53]
        exact this)
    obtain ⟨n, hn⟩ := Int.eq_ofNat_of_zero_le (show 0 ≤ 52 - Int.log 2 (k : ℚ) by omega)
    have he : Int.log 2 (k : ℚ) - 52 = -(n : ℤ) := by omega
    have hmax : max (Int.log 2 |(k : ℚ)|) (-1022) - 52 = -(n : ℤ) := by
      rw [abs_of_pos hx, max_eq_left (by omega), he]
    have hne : (k : ℚ) ≠ 0 := ne_of_gt hx
    simp only [f64round, hne, if_false, hmax, zpow_neg, zpow_natCast]
    have hdiv : (k : ℚ) / ((2 : ℚ) ^ n)⁻¹ = ((k * 2 ^ n : ℤ) : ℚ) := by
      push_cast
      rw [div_inv_eq_mul]
    rw [hdiv, roundHalfEven_intCast]
    push_cast
    field_simp

theorem roundHalfEven_of_gt (y : ℚ) (f : ℤ) (h1 : (f : ℚ) ≤ y) (h2 : y < f + 1)
    (h3 : 1 / 2 < y - f) : roundHalfEven y = f + 1 := by
  have hf : ⌊y⌋ = f := Int.floor_eq_iff.mpr ⟨h1, h2⟩
  have h4 : ¬ y - (f : ℚ) < 1 / 2 := not_lt.mpr (le_of_lt h3)
  simp only [roundHalfEven, hf, h4, if_false, gt_iff_lt, h3, if_true]

/-- A coarse form of the rounding error, enough for index bounds. -/
theorem f64round_le_coarse (x : ℚ) (hx : 0 ≤ x) :
    f64round x ≤ x * (1001 / 1000) + 1 / 1000 := by
  have h := (abs_le.mp (f64round_err x hx)).2
  have h1 : x / 2 ^ 53 ≤ x * (1 / 1000) := by
    rw [div_eq_mul_one_div]
    exact mul_le_mul_of_nonneg_left (by norm_num) hx
  have h2 : (1 : ℚ) / 2 ^ 1075 ≤ 1 / 1000 := by
    apply one_div_le_one_div_of_le (by norm_num)
    calc (1000 : ℚ) ≤ 2 ^ 10 := by norm_num
      _ ≤ 2 ^ 1075 := pow_le_pow_right₀ (by norm_num) (by norm_num)
  linarith

theorem truncToInt_nonneg (x : ℚ) (hx : 0 ≤ x) : truncToInt x = ⌊x⌋ := by
  simp [truncToInt, hx]

/-- The index expression of `percentile`, for `p ≤ 99` and any length. -/
theorem f64_index_le_of_le_99 (m : ℕ) (p : ℚ) (h0 : 0 < p) (h99 : p ≤ 99) :
    ∃ i : ℕ, (i : Int) = truncToInt (f64round (f64round (f64round (m : ℚ) * p) / 100)) ∧
      i ≤ m := by
  have hm : (0 : ℚ) ≤ (m : ℚ) := Nat.cast_nonneg m
  have ha0 := f64round_nonneg (m : ℚ) hm
  have ha := f64round_le_coarse (m : ℚ) hm
  have hap0 : 0 ≤ f64round (m : ℚ) * p := mul_nonneg ha0 (le_of_lt h0)
  have hap : f64round (m : ℚ) * p ≤ f64round (m : ℚ) * 99 :=
    mul_le_mul_of_nonneg_left h99 ha0
  have hb0 := f64round_nonneg _ hap0
  have hb := f64round_le_coarse _ hap0
  have hq0 : 0 ≤ f64round (f64round (m : ℚ) * p) / 100 := div_nonneg hb0 (by norm_num)
  have hc0 := f64round_nonneg _ hq0
  have hc := f64round_le_coarse _ hq0
  have hlt : f64round (f64round (f64round (m : ℚ) * p) / 100) < (m : ℚ) + 1 := by
    have hq : f64round (f64round (m : ℚ) * p) / 100 * (1001 / 1000)
        = f64round (f64round (m : ℚ) * p) * (1001 / 100000) := by ring
    rw [hq] at hc
    linarith
  rw [truncToInt_nonneg _ hc0]
  obtain ⟨i, hi⟩ := Int.eq_ofNat_of_zero_le (Int.floor_nonneg.mpr hc0)
  refine ⟨i, hi.symm, ?_⟩
  have h1 : ⌊f64round (f64round (f64round (m : ℚ) * p) / 100)⌋ < (m : Int) + 1 := by
    rw [Int.floor_lt]
    push_cast
    exact hlt
  omega

/-- The index expression of `percentile`, for `p < 100` and a length below `2^46`. -/
theorem f64_index_le (m : ℕ) (hm46 : m < 2 ^ 46) (p : ℚ) (h0 : 0 < p) (h100 : p < 100) :
    ∃ i : ℕ, (i : Int) = truncToInt (f64round (f64round (f64round (m : ℚ) * p) / 100)) ∧
      i ≤ m := by
  have hm : (0 : ℚ) ≤ (m : ℚ) := Nat.cast_nonneg m
  have hmq : (m : ℚ) ≤ 2 ^ 46 := by exact_mod_cast (le_of_lt hm46)
  have ha : f64round (m : ℚ) = (m : ℚ) := by
    have := f64round_intCast (m : ℤ) (by omega) (by
      have : (m : ℤ) < 2 ^ 46 := by exact_mod_cast hm46
      omega)
    simpa using this
  rw [ha]
  have hap0 : 0 ≤ (m : ℚ) * p := mul_nonneg hm (le_of_lt h0)
  have hap : (m : ℚ) * p ≤ (m : ℚ) * 100 := mul_le_mul_of_nonneg_left (le_of_lt h100) hm
  have hb0 := f64round_nonneg _ hap0
  have hb := (abs_le.mp (f64round_err _ hap0)).2
  have hq0 : 0 ≤ f64round ((m : ℚ) * p) / 100 := div_nonneg hb0 (by norm_num)
  have hc0 := f64round_nonneg _ hq0
  have hc := (abs_le.mp (f64round_err _ hq0)).2
  have htiny : (1 : ℚ) / 2 ^ 1075 ≤ 1 / 2 ^ 53 := by
    apply one_div_le_one_div_of_le (by positivity)
    exact pow_le_pow_right₀ (by norm_num) (by norm_num)
  have hlt : f64round (f64round ((m : ℚ) * p) / 100) < (m : ℚ) + 1 := by
    have e1 : ((m : ℚ) * p) / 2 ^ 53 ≤ (m : ℚ) * 100 / 2 ^ 53 :=
      div_le_div_of_nonneg_right hap (by positivity)
    have e2 : (m : ℚ) * 100 / 2 ^ 53 ≤ 2 ^ 46 * 100 / 2 ^ 53 :=
      div_le_div_of_nonneg_right (by linarith) (by positivity)
    have hB : f64round ((m : ℚ) * p) ≤ (m : ℚ) * 100 + 1 := by
      have : (2 : ℚ) ^ 46 * 100 / 2 ^ 53 + 1 / 2 ^ 53 ≤ 1 := by norm_num
      linarith
    have e3 : f64round ((m : ℚ) * p) / 100 / 2 ^ 53 ≤ ((m : ℚ) * 100 + 1) / 100 / 2 ^ 53 :=
      div_le_div_of_nonneg_right (div_le_div_of_nonneg_right hB (by norm_num)) (by positivity)
    have e4 : ((m : ℚ) * 100 + 1) / 100 / 2 ^ 53 ≤ ((2 : ℚ) ^ 46 * 100 + 1) / 100 / 2 ^ 53 :=
      div_le_div_of_nonneg_right (div_le_div_of_nonneg_right (by linarith) (by norm_num))
        (by positivity)
    have e5 : f64round ((m : ℚ) * p) / 100
        ≤ (m : ℚ) + (2 ^ 46 * 100 / 2 ^ 53 + 1 / 2 ^ 53) / 100 := by
      rw [div_le_iff₀ (by norm_num)]
      linarith
    have e6 : (2 ^ 46 * 100 / 2 ^ 53 + 1 / 2 ^ 53) / 100
        + ((2 : ℚ) ^ 46 * 100 + 1) / 100 / 2 ^ 53 + 1 / 2 ^ 53 < 1 := by norm_num
    linarith
  rw [truncToInt_nonneg _ hc0]
  obtain ⟨i, hi⟩ := Int.eq_ofNat_of_zero_le (Int.floor_nonneg.mpr hc0)
  refine ⟨i, hi.symm, ?_⟩
  have h1 : ⌊f64round (f64round ((m : ℚ) * p) / 100)⌋ < (m : Int) + 1 := by
    rw [Int.floor_lt]
    push_cast
    exact hlt
  omega


/-- For an integral `p` and a length below `2^46` the rounded index expression is the
exact floor. -/
theorem f64_index_integral (m : ℕ) (hm46 : m < 2 ^ 46) (k : ℤ) (h0 : 0 < k) (h100 : k < 100) :
    truncToInt (f64round (f64round (f64round (m : ℚ) * (k : ℚ)) / 100))
      = ⌊(m : ℚ) * (k : ℚ) / 100⌋ := by
  have hmz : (m : ℤ) < 2 ^ 46 := by exact_mod_cast hm46
  have hm0 : (0 : ℤ) ≤ (m : ℤ) := Int.natCast_nonneg m
  have ha : f64round (m : ℚ) = (m : ℚ) := by
    have := f64round_intCast (m : ℤ) hm0 (by omega)
    simpa using this
  have hmk0 : 0 ≤ (m : ℤ) * k := mul_nonneg hm0 (le_of_lt h0)
  have hmk100 : (m : ℤ) * k ≤ (m : ℤ) * 100 :=
    mul_le_mul_of_nonneg_left (le_of_lt h100) hm0
  have hmk : (m : ℤ) * k < 2 ^ 53 := by omega
  have hb : f64round ((m : ℚ) * (k : ℚ)) = (m : ℚ) * (k : ℚ) := by
    have := f64round_intCast ((m : ℤ) * k) hmk0 hmk
    push_cast at this
    exact this
  rw [ha, hb]
  -- the exact quotient and its integer part
  have hdm := Int.emod_add_ediv ((m : ℤ) * k) 100
  have hr0 := Int.emod_nonneg ((m : ℤ) * k) (by norm_num : (100 : ℤ) ≠ 0)
  have hr1 := Int.emod_lt_of_pos ((m : ℤ) * k) (by norm_num : (0 : ℤ) < 100)
  generalize ((m : ℤ) * k) / 100 = K at hdm
  generalize ((m : ℤ) * k) % 100 = r at hdm hr0 hr1
  have hq : (m : ℚ) * (k : ℚ) / 100 = (K : ℚ) + (r : ℚ) / 100 := by
    have : ((m : ℤ) * k : ℚ) = (r : ℚ) + 100 * (K : ℚ) := by exact_mod_cast hdm.symm
    push_cast at this
    rw [this]
    ring
  have hK0 : 0 ≤ K := by omega
  have hrq0 : (0 : ℚ) ≤ (r : ℚ) := by exact_mod_cast hr0
  have hrq1 : (r : ℚ) ≤ 99 := by
    have : r ≤ 99 := by omega
    exact_mod_cast this
  have hfloor : ⌊(m : ℚ) * (k : ℚ) / 100⌋ = K := by
    rw [Int.floor_eq_iff, hq]
    constructor <;> linarith
  rw [hfloor]
  have hq0 : 0 ≤ (m : ℚ) * (k : ℚ) / 100 := by
    rw [hq]
    have : (0 : ℚ) ≤ (K : ℚ) := by exact_mod_cast hK0
    linarith
  rw [truncToInt_nonneg _ (f64round_nonneg _ hq0)]
  rcases eq_or_lt_of_le hr0 with hz | hpos
  · -- the quotient is an integer
    have hKlt : K < 2 ^ 53 := by omega
    have : (m : ℚ) * (k : ℚ) / 100 = (K : ℚ) := by
      rw [hq, ← hz]; simp
    rw [this, f64round_intCast K hK0 hKlt]
    exact Int.floor_intCast K
  · -- the quotient is at least 1/100 away from the integers
    have herr := abs_le.mp (f64round_err _ hq0)
    have hr1q : (1 : ℚ) ≤ (r : ℚ) := by exact_mod_cast hpos
    have hKq : (K : ℚ) ≤ 2 ^ 46 := by
      have : K ≤ 2 ^ 46 := by omega
      exact_mod_cast this
    have hbound : (m : ℚ) * (k : ℚ) / 100 / 2 ^ 53 + 1 / 2 ^ 1075 < 1 / 100 := by
      have e1 : (m : ℚ) * (k : ℚ) / 100 ≤ 2 ^ 46 + 1 := by
        rw [hq]; linarith
      have e2 : (m : ℚ) * (k : ℚ) / 100 / 2 ^ 53 ≤ (2 ^ 46 + 1) / 2 ^ 53 :=
        div_le_div_of_nonneg_right e1 (by positivity)
      have e3 : (1 : ℚ) / 2 ^ 1075 ≤ 1 / 2 ^ 53 := by
        apply one_div_le_one_div_of_le (by positivity)
        exact pow_le_pow_right₀ (by norm_num) (by norm_num)
      have e4 : ((2 : ℚ) ^ 46 + 1) / 2 ^ 53 + 1 / 2 ^ 53 < 1 / 100 := by norm_num
      linarith
    rw [Int.floor_eq_iff]
    rw [hq] at herr hbound ⊢
    constructor <;> linarith [herr.1, herr.2]

/-! ## percentile -/

theorem sortInts_sorted (l : List Int) : List.Sorted (· ≤ ·) (sortInts l) :=
  List.sorted_insertionSort _ l

theorem sortInts_perm (l : List Int) : (sortInts l).Perm l :=
  List.perm_insertionSort _ l

theorem sortInts_length (l : List Int) : (sortInts l).length = l.length :=
  (sortInts_perm l).length_eq

theorem copySlice_make (vals : List Int) :
    copySlice (List.replicate vals.length 0) vals = vals :=
  copySlice_same_length _ _ (by simp)

theorem indexInt_ofNat (s : List Int) (i : Nat) (h : i < s.length) :
    indexInt s (i : Int) = some s[i] := by
  simp [indexInt, List.getElem?_eq_getElem h]

/-- The middle branch of `percentile`: the element of the sorted copy at the rounded
index, with the caller's slice as it was. -/
theorem percentile_mid_eq (vals : List Int) (p : ℚ) (hne : vals ≠ [])
    (h0 : 0 < p) (h100 : p < 100) :
    percentile vals p = indexInt (sortInts vals)
      (truncToInt (f64round (f64round (f64round ((vals.length - 1 : ℕ) : ℚ) * p) / 100))) ∧
    (percentileRun vals p).2 = vals := by
  have hlen : 0 < vals.length := List.length_pos.mpr hne
  have hlen0 : vals.length ≠ 0 := Nat.pos_iff_ne_zero.mp hlen
  have hcast : ((((sortInts vals).length : Int) - 1 : Int) : ℚ)
      = ((vals.length - 1 : ℕ) : ℚ) := by
    rw [sortInts_length]
    have : ((vals.length : Int) - 1) = ((vals.length - 1 : ℕ) : Int) := by omega
    rw [this]
    norm_cast
  constructor
  · simp only [percentile, percentileRun, hlen0, if_false, not_le.mpr h0,
      not_le.mpr h100, ge_iff_le, copySlice_make, hcast]
  · simp only [percentileRun, hlen0, if_false, not_le.mpr h0, not_le.mpr h100, ge_iff_le]

/-- C2, the claim as stated fails. For `p` the `float64` nearest to `100/9`
(`0x1.638e38e38e38ep+3`, a little below `100/9`) and ten values, the exact index
`floor(9*p/100)` is 0, but the `float64` product `9*p` rounds to `100.0`, the quotient is
`1.0`, and `percentile` returns the element at index 1. -/
theorem percentile_index_rounds_up :
    (0 : ℚ) < 3127499741229511 / 281474976710656 ∧
    (3127499741229511 / 281474976710656 : ℚ) < 100 ∧
    ⌊(((10 : ℕ) : ℚ) - 1) * (3127499741229511 / 281474976710656) / 100⌋ = 0 ∧
    sortInts [10, 20, 30, 40, 50, 60, 70, 80, 90, 100]
      = [10, 20, 30, 40, 50, 60, 70, 80, 90, 100] ∧
    percentile [10, 20, 30, 40, 50, 60, 70, 80, 90, 100]
      (3127499741229511 / 281474976710656) = some 20 := by
  refine ⟨by norm_num, by norm_num, ?_, by decide, ?_⟩
  · rw [Int.floor_eq_iff]
    norm_num
  · have h9 : f64round ((9 : ℕ) : ℚ) = 9 := by
      have := f64round_intCast 9 (by norm_num) (by norm_num)
      simpa using this
    have hprod : f64round (9 * (3127499741229511 / 281474976710656)) = 100 := by
      rw [f64round_eq _ 6 7036874417766400 (by norm_num) (by norm_num) (by norm_num)
        (by norm_num) (by rw [roundHalfEven_of_gt _ 7036874417766399] <;> norm_num)]
      norm_num
    have h1 : f64round (100 / 100) = 1 := by
      have := f64round_intCast 1 (by norm_num) (by norm_num)
      simpa using this
    have hsort : sortInts [10, 20, 30, 40, 50, 60, 70, 80, 90, 100]
        = [10, 20, 30, 40, 50, 60, 70, 80, 90, 100] := by decide
    rw [(percentile_mid_eq _ _ (by decide) (by norm_num) (by norm_num)).1, hsort]
    have hlen : ([10, 20, 30, 40, 50, 60, 70, 80, 90, 100] : List Int).length - 1 = 9 := rfl
    rw [hlen, h9, hprod, h1]
    have ht : truncToInt 1 = 1 := by simp [truncToInt]
    rw [ht]
    decide

/-- C2, amended. For a non-empty `vals` of length `n ≤ 2^46` and `0 < p < 100`,
`percentile vals p` is the element of the ascending rearrangement `s` of `vals` (`s` is
sorted and a permutation of `vals`) at the index that `float64(n-1) * p / 100.0` gives in
`float64` arithmetic, truncated; that index is within bounds; for an integral `p` (such as
50, 95, 99) it is `floor((n-1)*p/100)`; and the caller's slice is left as it was. -/
theorem percentile_nearest_rank (vals : List Int) (p : ℚ) (hne : vals ≠ [])
    (hlen46 : vals.length ≤ 2 ^ 46) (h0 : 0 < p) (h100 : p < 100) :
    ∃ s : List Int, List.Sorted (· ≤ ·) s ∧ s.Perm vals ∧
      ∃ i : Nat, ∃ h : i < s.length,
        percentile vals p = some s[i] ∧
        (i : Int) = truncToInt
          (f64round (f64round (f64round ((vals.length - 1 : ℕ) : ℚ) * p) / 100)) ∧
        ((∃ k : ℤ, p = (k : ℚ)) → (i : Int) = ⌊((vals.length : ℚ) - 1) * p / 100⌋) ∧
        (percentileRun vals p).2 = vals := by
  have hlen : 0 < vals.length := List.length_pos.mpr hne
  have hm46 : vals.length - 1 < 2 ^ 46 := by omega
  obtain ⟨i, hi, hle⟩ := f64_index_le (vals.length - 1) hm46 p h0 h100
  have hil : i < (sortInts vals).length := by
    rw [sortInts_length]; omega
  obtain ⟨hval, hframe⟩ := percentile_mid_eq vals p hne h0 h100
  refine ⟨sortInts vals, sortInts_sorted vals, sortInts_perm vals, i, hil, ?_, hi, ?_, hframe⟩
  · rw [hval, ← hi]
    exact indexInt_ofNat _ _ hil
  · rintro ⟨k, rfl⟩
    have hk0 : 0 < k := by exact_mod_cast h0
    have hk100 : k < 100 := by exact_mod_cast h100
    rw [hi, f64_index_integral (vals.length - 1) hm46 k hk0 hk100]
    have hc : ((vals.length - 1 : ℕ) : ℚ) = (vals.length : ℚ) - 1 := by
      rw [Nat.cast_sub hlen]; simp
    rw [hc]

/-- Witness for the amended C2: the median of five values, index `floor(4*50/100) = 2`. -/
theorem percentile_nearest_rank_witness :
    ∃ s : List Int, List.Sorted (· ≤ ·) s ∧ s.Perm [5, 1, 4, 2, 3] ∧
      ∃ i : Nat, ∃ h : i < s.length, percentile [5, 1, 4, 2, 3] 50 = some s[i] ∧
        (i : Int) = ⌊((([5, 1, 4, 2, 3] : List Int).length : ℚ) - 1) * 50 / 100⌋ := by
  obtain ⟨s, hs, hp, i, h, hval, _, hint, _⟩ :=
    percentile_nearest_rank [5, 1, 4, 2, 3] 50 (by decide) (by norm_num [List.length])
      (by norm_num) (by norm_num)
  exact ⟨s, hs, hp, i, h, hval, hint ⟨50, by norm_num⟩⟩

theorem sorted_head_le (s : List Int) (hs : List.Sorted (· ≤ ·) s) (h : 0 < s.length) :
    ∀ x ∈ s, s[0] ≤ x := by
  cases s with
  | nil => simp at h
  | cons a t =>
    intro x hx
    rcases List.mem_cons.mp hx with rfl | hx
    · exact le_refl _
    · exact List.rel_of_sorted_cons hs x hx

theorem sorted_le_last (s : List Int) (hs : List.Sorted (· ≤ ·) s) (h : s.length - 1 < s.length) :
    ∀ x ∈ s, x ≤ s[s.length - 1] := by
  intro x hx
  obtain ⟨j, hj, rfl⟩ := List.mem_iff_getElem.mp hx
  have hle : (⟨j, hj⟩ : Fin s.length) ≤ ⟨s.length - 1, h⟩ := by
    show j ≤ s.length - 1
    omega
  exact hs.rel_get_of_le hle

/-- C3. `percentile [] p` is the sentinel `-1` for every `p`; for a non-empty `vals`,
`percentile vals p` is the minimum of `vals` whenever `p ≤ 0` and the maximum of `vals`
whenever `p ≥ 100`. -/
theorem percentile_extremes (vals : List Int) (p : ℚ) :
    percentile [] p = some (-1) ∧
    (vals ≠ [] → p ≤ 0 →
      ∃ m, percentile vals p = some m ∧ m ∈ vals ∧ ∀ x ∈ vals, m ≤ x) ∧
    (vals ≠ [] → 100 ≤ p →
      ∃ m, percentile vals p = some m ∧ m ∈ vals ∧ ∀ x ∈ vals, x ≤ m) := by
  refine ⟨rfl, ?_, ?_⟩
  · intro hne hp
    have hlen : 0 < vals.length := List.length_pos.mpr hne
    have hlen0 : vals.length ≠ 0 := Nat.pos_iff_ne_zero.mp hlen
    have hsl : 0 < (sortInts vals).length := by rw [sortInts_length]; exact hlen
    refine ⟨(sortInts vals)[0], ?_, ?_, ?_⟩
    · simp only [percentile, percentileRun, hlen0, if_false, hp, if_true, copySlice_make]
      exact indexInt_ofNat _ 0 hsl
    · exact (sortInts_perm vals).mem_iff.mp (List.getElem_mem _)
    · intro x hx
      exact sorted_head_le _ (sortInts_sorted vals) hsl x ((sortInts_perm vals).mem_iff.mpr hx)
  · intro hne hp
    have hlen : 0 < vals.length := List.length_pos.mpr hne
    have hlen0 : vals.length ≠ 0 := Nat.pos_iff_ne_zero.mp hlen
    have hsl : (sortInts vals).length - 1 < (sortInts vals).length := by
      rw [sortInts_length]; omega
    have hp0 : ¬ p ≤ 0 := by
      intro h
      have : (100 : ℚ) ≤ 0 := le_trans hp h
      norm_num at this
    refine ⟨(sortInts vals)[(sortInts vals).length - 1], ?_, ?_, ?_⟩
    · have hcast : ((sortInts vals).length : Int) - 1
          = (((sortInts vals).length - 1 : Nat) : Int) := by
        omega
      simp only [percentile, percentileRun, hlen0, if_false, hp0, ge_iff_le, hp, if_true,
        copySlice_make, hcast]
      exact indexInt_ofNat _ _ hsl
    · exact (sortInts_perm vals).mem_iff.mp (List.getElem_mem _)
    · intro x hx
      exact sorted_le_last _ (sortInts_sorted vals) hsl x ((sortInts_perm vals).mem_iff.mpr hx)

/-- Witness for C3: minimum at `p = 0`, maximum at `p = 100`, sentinel on the empty list. -/
theorem percentile_extremes_witness :
    percentile [] 0 = some (-1) ∧
    (∃ m, percentile [5, 1, 4, 2, 3] 0 = some m ∧ m ∈ ([5, 1, 4, 2, 3] : List Int) ∧
      ∀ x ∈ ([5, 1, 4, 2, 3] : List Int), m ≤ x) ∧
    (∃ m, percentile [5, 1, 4, 2, 3] 100 = some m ∧ m ∈ ([5, 1, 4, 2, 3] : List Int) ∧
      ∀ x ∈ ([5, 1, 4, 2, 3] : List Int), x ≤ m) :=
  ⟨(percentile_extremes [5, 1, 4, 2, 3] 0).1,
   (percentile_extremes [5, 1, 4, 2, 3] 0).2.1 (by decide) (by norm_num),
   (percentile_extremes [5, 1, 4, 2, 3] 100).2.2 (by decide) (by norm_num)⟩

/-! ## slidingWindow -/

theorem snapshotStep_secs (w : slidingWindow) (acc : Series) (s : Int) :
    (snapshotStep w acc s).secs = acc.secs ++ [s] := by
  unfold snapshotStep
  cases mapGet w.window s <;> rfl

theorem snapshotStep_lengths (w : slidingWindow) (acc : Series) (s : Int) :
    (snapshotStep w acc s).rps.length = acc.rps.length + 1 ∧
    (snapshotStep w acc s).avgLatency.length = acc.avgLatency.length + 1 ∧
    (snapshotStep w acc s).succ.length = acc.succ.length + 1 ∧
    (snapshotStep w acc s).errs.length = acc.errs.length + 1 ∧
    (snapshotStep w acc s).timeouts.length = acc.timeouts.length + 1 := by
  unfold snapshotStep
  cases mapGet w.window s <;> simp [Series.push]

theorem snapshotLoop_secs (w : slidingWindow) (last : Int) (n : Nat) (s : Int) (acc : Series)
    (h : s + n = last + 1) :
    (snapshotLoop w last n s acc).secs
      = acc.secs ++ (List.range n).map (fun i : Nat => s + i) := by
  induction n generalizing s acc with
  | zero => simp [snapshotLoop]
  | succ n ih =>
    have hle : s ≤ last := by push_cast at h; omega
    have hnext : s + 1 + (n : Int) = last + 1 := by push_cast at h; omega
    simp only [snapshotLoop, hle, if_true]
    rw [ih (s + 1) _ hnext, snapshotStep_secs, List.range_succ_eq_map, List.map_cons,
      List.map_map, List.append_assoc]
    congr 2
    · simp
      intro a _
      omega

theorem snapshotLoop_lengths (w : slidingWindow) (last : Int) (n : Nat) (s : Int)
    (acc : Series) (h : s + n = last + 1) :
    (snapshotLoop w last n s acc).rps.length = acc.rps.length + n ∧
    (snapshotLoop w last n s acc).avgLatency.length = acc.avgLatency.length + n ∧
    (snapshotLoop w last n s acc).succ.length = acc.succ.length + n ∧
    (snapshotLoop w last n s acc).errs.length = acc.errs.length + n ∧
    (snapshotLoop w last n s acc).timeouts.length = acc.timeouts.length + n := by
  induction n generalizing s acc with
  | zero => simp [snapshotLoop]
  | succ n ih =>
    have hle : s ≤ last := by push_cast at h; omega
    have hnext : s + 1 + (n : Int) = last + 1 := by push_cast at h; omega
    simp only [snapshotLoop, hle, if_true]
    obtain ⟨h1, h2, h3, h4, h5⟩ := ih (s + 1) (snapshotStep w acc s) hnext
    obtain ⟨g1, g2, g3, g4, g5⟩ := snapshotStep_lengths w acc s
    rw [h1, h2, h3, h4, h5, g1, g2, g3, g4, g5]
    refine ⟨?_, ?_, ?_, ?_, ?_⟩ <;> omega

theorem snapshot_nonempty_eq (w : slidingWindow) (now : Int) (h : w.window ≠ []) :
    w.snapshot now
      = snapshotLoop w now w.span.toNat (now - w.span + 1) Series.nil := by
  have hl : w.window.length ≠ 0 := by
    intro h0
    exact h (List.length_eq_zero.mp h0)
  have hfuel : now - (now - w.span + 1) + 1 = w.span := by omega
  simp only [slidingWindow.snapshot, hl, if_false, hfuel]

/-- C4, the claim as stated fails: a window that has never received an `add` has an empty
map, and `snapshot` then returns the six nil series, not `span = 60` points. -/
theorem snapshot_fresh_window_empty :
    (newSlidingWindow 60).snapshot 1700000000 = Series.nil ∧
    ((newSlidingWindow 60).snapshot 1700000000).secs.length ≠ 60 := by
  decide

/-- C4, amended. A window holding no bucket yields six empty series. A window holding at
least one bucket yields exactly `span` data points (none when `span ≤ 0`): the seconds are
`now-span+1, now-span+2, ..., now` in ascending order and all six series have that
length. -/
theorem snapshot_span_points (w : slidingWindow) (now : Int) :
    (w.window = [] → w.snapshot now = Series.nil) ∧
    (w.window ≠ [] →
      (w.snapshot now).secs
        = (List.range w.span.toNat).map (fun i : Nat => now - w.span + 1 + i) ∧
      (w.snapshot now).secs.length = w.span.toNat ∧
      (w.snapshot now).rps.length = w.span.toNat ∧
      (w.snapshot now).avgLatency.length = w.span.toNat ∧
      (w.snapshot now).succ.length = w.span.toNat ∧
      (w.snapshot now).errs.length = w.span.toNat ∧
      (w.snapshot now).timeouts.length = w.span.toNat) := by
  constructor
  · intro h
    simp [slidingWindow.snapshot, h]
  · intro h
    rw [snapshot_nonempty_eq w now h]
    rcases le_or_lt w.span 0 with hs | hs
    · have h0 : w.span.toNat = 0 := Int.toNat_eq_zero.mpr hs
      rw [h0]
      simp [snapshotLoop, Series.nil]
    · have hsum : now - w.span + 1 + (w.span.toNat : Int) = now + 1 := by
        rw [Int.toNat_of_nonneg (le_of_lt hs)]
        omega
      have hsecs := snapshotLoop_secs w now w.span.toNat (now - w.span + 1) Series.nil hsum
      obtain ⟨h1, h2, h3, h4, h5⟩ :=
        snapshotLoop_lengths w now w.span.toNat (now - w.span + 1) Series.nil hsum
      refine ⟨?_, ?_, ?_, ?_, ?_, ?_, ?_⟩
      · simpa [Series.nil] using hsecs
      · rw [hsecs]; simp [Series.nil]
      · simpa [Series.nil] using h1
      · simpa [Series.nil] using h2
      · simpa [Series.nil] using h3
      · simpa [Series.nil] using h4
      · simpa [Series.nil] using h5

/-- Witness for the amended C4: one bucket, horizon 3, read at second 100. -/
theorem snapshot_span_points_witness :
    (((newSlidingWindow 3).add 99 7 true false).snapshot 100).secs = [98, 99, 100] ∧
    (((newSlidingWindow 3).add 99 7 true false).snapshot 100).rps.length = 3 :=
  ⟨((snapshot_span_points ((newSlidingWindow 3).add 99 7 true false) 100).2 (by decide)).1,
   ((snapshot_span_points ((newSlidingWindow 3).add 99 7 true false) 100).2 (by decide)).2.2.1⟩

theorem mapGet_mapPut_same (m : BucketMap) (k : Int) (b : secondBucket) :
    mapGet (mapPut m k b) k = some b := by
  induction m with
  | nil => simp [mapPut, mapGet]
  | cons kv rest ih =>
    obtain ⟨k1, b1⟩ := kv
    by_cases h : k1 = k
    · simp [mapPut, mapGet, h]
    · simp [mapPut, mapGet, h, ih]

theorem mapGet_mapPut_other (m : BucketMap) (k j : Int) (b : secondBucket) (hj : j ≠ k) :
    mapGet (mapPut m k b) j = mapGet m j := by
  induction m with
  | nil => simp [mapPut, mapGet, Ne.symm hj]
  | cons kv rest ih =>
    obtain ⟨k1, b1⟩ := kv
    by_cases h : k1 = k
    · subst h
      simp [mapPut, mapGet, Ne.symm hj]
    · by_cases h2 : k1 = j
      · subst h2
        simp [mapPut, mapGet, h]
      · simp [mapPut, mapGet, h, h2, ih]

theorem mapGet_mapEvict (m : BucketMap) (cut j : Int) :
    mapGet (mapEvict m cut) j = if j < cut then none else mapGet m j := by
  induction m with
  | nil => simp [mapEvict, mapGet]
  | cons kv rest ih =>
    obtain ⟨k1, b1⟩ := kv
    have ih1 : mapGet (List.filter (fun kv => !decide (kv.1 < cut)) rest) j
        = if j < cut then none else mapGet rest j := ih
    by_cases hk : k1 < cut
    · have : mapEvict ((k1, b1) :: rest) cut = mapEvict rest cut := by
        simp [mapEvict, hk]
      rw [this, ih]
      by_cases hj : j < cut
      · simp [hj]
      · have hne : k1 ≠ j := by omega
        simp [hj, mapGet, hne]
    · have : mapEvict ((k1, b1) :: rest) cut = (k1, b1) :: mapEvict rest cut := by
        simp [mapEvict, hk]
      rw [this]
      by_cases h2 : k1 = j
      · subst h2
        simp [mapGet, hk]
      · simp only [mapGet, h2, if_false, ih]

theorem mem_mapEvict (m : BucketMap) (cut : Int) (kv : Int × secondBucket)
    (h : kv ∈ mapEvict m cut) : cut ≤ kv.1 := by
  have := (List.mem_filter.mp h).2
  simpa using this

/-- C5, the claim as stated fails: on a window of horizon 60 holding a bucket for second 0,
a write at second `T = 60` leaves that bucket in the map although `0 < T - 60 + 1`. -/
theorem add_keeps_bucket_at_cut :
    ∃ kv ∈ (((newSlidingWindow 60).add 0 5 true false).add 60 5 true false).window,
      kv.1 < 60 - 60 + 1 := by
  decide

/-- C5, amended. After `add` at unix second `T` on a window of horizon `S`, whatever the
prior state, the map contains no bucket whose key is less than `T - S`. -/
theorem add_evicts_below_cut (w : slidingWindow) (sec latencyMs : Int) (ok isTimeout : Bool) :
    ∀ kv ∈ (w.add sec latencyMs ok isTimeout).window, ¬ kv.1 < sec - w.span := by
  intro kv hkv
  have := mem_mapEvict _ _ kv hkv
  omega

/-- Witness for the amended C5: after writes at seconds 0 and 61 with horizon 60 the
bucket of second 61 is in the map, and its key is not below `61 - 60`. -/
theorem add_evicts_below_cut_witness :
    ((61 : Int), secondBucket.zero.bump 5 true false)
        ∈ (((newSlidingWindow 60).add 0 5 true false).add 61 5 true false).window ∧
      ¬ ((61 : Int) < 61 - 60) :=
  ⟨by decide,
   add_evicts_below_cut ((newSlidingWindow 60).add 0 5 true false) 61 5 true false
     ((61 : Int), secondBucket.zero.bump 5 true false) (by decide)⟩

/-- C6. Postcondition of `add` at second `sec`: buckets with key `< sec - span` are absent
afterwards; every other bucket except the one for `sec` is as before; the horizon is
unchanged; and (for a non-negative horizon) the bucket for `sec`, taken as all zeros when
absent, has `Requests` one larger, `LatencyTotalMs` larger by `latencyMs`, and exactly one
of `Success` (if `ok`), `Timeouts` (if not `ok` and `isTimeout`) or `Errors` (otherwise)
one larger. -/
theorem add_postcondition (w : slidingWindow) (sec latencyMs : Int) (ok isTimeout : Bool) :
    (0 ≤ w.span → ∃ old, old = (mapGet w.window sec).getD secondBucket.zero ∧
      mapGet (w.add sec latencyMs ok isTimeout).window sec = some
        { Requests := old.Requests + 1,
          Success := old.Success + (if ok then 1 else 0),
          Errors := old.Errors + (if !ok && !isTimeout then 1 else 0),
          Timeouts := old.Timeouts + (if !ok && isTimeout then 1 else 0),
          LatencyTotalMs := old.LatencyTotalMs + latencyMs }) ∧
    (∀ k, k < sec - w.span → mapGet (w.add sec latencyMs ok isTimeout).window k = none) ∧
    (∀ k, k ≠ sec → sec - w.span ≤ k →
      mapGet (w.add sec latencyMs ok isTimeout).window k = mapGet w.window k) ∧
    (w.add sec latencyMs ok isTimeout).span = w.span := by
  refine ⟨fun hspan => ⟨_, rfl, ?_⟩, ?_, ?_, rfl⟩
  · have hcut : ¬ sec < sec - w.span := by omega
    simp only [slidingWindow.add, mapGet_mapEvict, hcut, if_false, mapGet_mapPut_same]
    cases mapGet w.window sec <;> cases ok <;> cases isTimeout <;>
      simp [secondBucket.bump, secondBucket.zero]
  · intro k hk
    simp only [slidingWindow.add, mapGet_mapEvict, hk, if_true]
  · intro k hk hcut
    have hcut1 : ¬ k < sec - w.span := by omega
    simp only [slidingWindow.add, mapGet_mapEvict, hcut1, if_false,
      mapGet_mapPut_other _ _ _ _ hk]

/-- Witness for C6: a second write into the bucket of second 99, a timeout of 8 ms. -/
theorem add_postcondition_witness :
    mapGet (((newSlidingWindow 3).add 99 7 true false).add 99 8 false true).window 99 = some
      { Requests := 2, Success := 1, Errors := 0, Timeouts := 1, LatencyTotalMs := 15 } := by
  obtain ⟨old, hold, h⟩ :=
    (add_postcondition ((newSlidingWindow 3).add 99 7 true false) 99 8 false true).1
      (by decide)
  rw [h, hold]
  decide

/-! ## Night-block window -/

theorem parseClock_hhmm (h m : Nat) (hh : h ≤ 23) (hm : m ≤ 59) :
    parseClock (hhmm h m) = ((h : Int), (m : Int)) := by
  have key : ∀ a : Fin 24, ∀ b : Fin 60,
      parseClock (hhmm a b) = ((a.val : Int), (b.val : Int)) := by decide
  exact key ⟨h, by omega⟩ ⟨m, by omega⟩

/-- Wall-clock form of the window test: for the well-formed strings `"HH:MM"` of
`(h1, m1)` and `(h2, m2)`, compared as seconds of the day, `inWindow` holds iff
`start ≤ t < end` when the end is after the start, and iff `t ≥ start` or `t < end`
otherwise. -/
theorem inWindow_wall_half_open (t : Clock) (h1 m1 h2 m2 : Nat)
    (hh1 : h1 ≤ 23) (hm1 : m1 ≤ 59) (hh2 : h2 ≤ 23) (hm2 : m2 ≤ 59)
    (hns : t.nsec < 1000000000) :
    (h1 * 3600 + m1 * 60 < h2 * 3600 + m2 * 60 →
      (inWindow t { Start := hhmm h1 m1, End := hhmm h2 m2 } = true ↔
        h1 * 3600 + m1 * 60 ≤ t.hour * 3600 + t.minute * 60 + t.second ∧
        t.hour * 3600 + t.minute * 60 + t.second < h2 * 3600 + m2 * 60)) ∧
    (¬ h1 * 3600 + m1 * 60 < h2 * 3600 + m2 * 60 →
      (inWindow t { Start := hhmm h1 m1, End := hhmm h2 m2 } = true ↔
        h1 * 3600 + m1 * 60 ≤ t.hour * 3600 + t.minute * 60 + t.second ∨
        t.hour * 3600 + t.minute * 60 + t.second < h2 * 3600 + m2 * 60)) ∧
    (inWindow ⟨0, 29, 59, 0⟩ { Start := hhmm 0 30, End := hhmm 6 0 } = false ∧
     inWindow ⟨0, 30, 0, 0⟩ { Start := hhmm 0 30, End := hhmm 6 0 } = true ∧
     inWindow ⟨5, 59, 59, 0⟩ { Start := hhmm 0 30, End := hhmm 6 0 } = true ∧
     inWindow ⟨6, 0, 0, 0⟩ { Start := hhmm 0 30, End := hhmm 6 0 } = false ∧
     inWindow ⟨23, 59, 0, 0⟩ { Start := hhmm 22 0, End := hhmm 6 0 } = true ∧
     inWindow ⟨3, 0, 0, 0⟩ { Start := hhmm 22 0, End := hhmm 6 0 } = true ∧
     inWindow ⟨12, 0, 0, 0⟩ { Start := hhmm 22 0, End := hhmm 6 0 } = false) := by
  refine ⟨?_, ?_, by decide⟩
  · intro hlt
    have hgt : dateAt (h2 : Int) (m2 : Int) > dateAt (h1 : Int) (m1 : Int) := by
      simp only [dateAt]; omega
    simp only [inWindow, parseClock_hhmm h1 m1 hh1 hm1, parseClock_hhmm h2 m2 hh2 hm2, hgt,
      decide_True, Bool.not_true, Bool.false_eq_true, if_false, Bool.and_eq_true,
      Bool.or_eq_true, decide_eq_true_eq]
    simp only [dateAt, Clock.nanos]
    constructor
    · rintro ⟨h | h, h3⟩ <;> constructor <;> omega
    · rintro ⟨h, h3⟩
      constructor <;> omega
  · intro hlt
    have hgt : ¬ dateAt (h2 : Int) (m2 : Int) > dateAt (h1 : Int) (m1 : Int) := by
      simp only [dateAt]; omega
    simp only [inWindow, parseClock_hhmm h1 m1 hh1 hm1, parseClock_hhmm h2 m2 hh2 hm2, hgt,
      decide_False, Bool.not_false, if_true, Bool.or_eq_true, decide_eq_true_eq]
    simp only [dateAt, Clock.nanos]
    constructor
    · rintro ((h | h) | h)
      · left; omega
      · left; omega
      · right; omega
    · rintro (h | h)
      · left; omega
      · right; omega

theorem goDate_of_no_change (l : Location) (h m : Int) (hc : l.change = none) :
    goDate l h m = (h * 60 + m) * 60 - l.offset := by
  by_cases h0 : l.offset = 0
  · simp [goDate, Location.lookup, hc, h0]
  · simp [goDate, Location.lookup, hc, h0]

/-- On a date without clock change the comparison of instants is the comparison of
wall-clock readings. -/
theorem inWindowAt_of_no_change (t : Time) (w : TimeOfDay) (hc : t.loc.change = none)
    (ho : t.offset = t.loc.offset) : inWindowAt t w = inWindow t.wall w := by
  have hnow : t.unixNano = t.wall.nanos - t.loc.offset * 1000000000 := by
    simp only [Time.unixNano, Clock.nanos, ho]
    ring
  have hdate : ∀ h m : Int,
      goDate t.loc h m * 1000000000 = dateAt h m - t.loc.offset * 1000000000 := by
    intro h m
    rw [goDate_of_no_change t.loc h m hc]
    simp only [dateAt]
    ring
  simp only [inWindowAt, inWindow, hnow, hdate, gt_iff_lt, sub_lt_sub_iff_right,
    sub_left_inj]

/-- C7, the claim as stated fails. In New York on 2026-03-08 the clock skips from 02:00 to
03:00. For the window 02:30-03:30 `time.Date` turns the missing reading 02:30 into the
instant 06:30 UTC (01:30 local) and 03:30 into 07:30 UTC, so at 01:45:00 local time
(06:45 UTC) `inWindow` is true, although the end is after the start and 01:45:00 is
before 02:30. -/
theorem inWindowAt_spring_forward :
    (newYorkSpringForward.lookup 24300).1 = -18000 ∧
    goDate newYorkSpringForward 2 30 = 23400 ∧
    goDate newYorkSpringForward 3 30 = 27000 ∧
    inWindowAt { wall := ⟨1, 45, 0, 0⟩, offset := -18000, loc := newYorkSpringForward }
      { Start := hhmm 2 30, End := hhmm 3 30 } = true ∧
    2 * 3600 + 30 * 60 < 3 * 3600 + 30 * 60 ∧
    ¬ (2 * 3600 + 30 * 60 ≤ 1 * 3600 + 45 * 60 + 0) := by
  decide

/-- C7, amended. For a time `t` on a calendar date without clock change in its location
and a window whose start and end are the well-formed strings `"HH:MM"` of `(h1, m1)` and
`(h2, m2)`, compared as seconds of the day: if the end is after the start, `inWindow` holds
iff `start ≤ t < end`; otherwise it holds iff `t ≥ start` or `t < end`. On such a date (here
at UTC+8) the window 00:30-06:00 is closed at 00:29:59, open at 00:30:00 and 05:59:59,
closed at 06:00:00; the window 22:00-06:00 is open at 23:59:00 and 03:00:00 and closed at
12:00:00. -/
theorem inWindowAt_half_open (t : Time) (h1 m1 h2 m2 : Nat)
    (hh1 : h1 ≤ 23) (hm1 : m1 ≤ 59) (hh2 : h2 ≤ 23) (hm2 : m2 ≤ 59)
    (hns : t.wall.nsec < 1000000000)
    (hc : t.loc.change = none) (ho : t.offset = t.loc.offset) :
    (h1 * 3600 + m1 * 60 < h2 * 3600 + m2 * 60 →
      (inWindowAt t { Start := hhmm h1 m1, End := hhmm h2 m2 } = true ↔
        h1 * 3600 + m1 * 60 ≤ t.wall.hour * 3600 + t.wall.minute * 60 + t.wall.second ∧
        t.wall.hour * 3600 + t.wall.minute * 60 + t.wall.second < h2 * 3600 + m2 * 60)) ∧
    (¬ h1 * 3600 + m1 * 60 < h2 * 3600 + m2 * 60 →
      (inWindowAt t { Start := hhmm h1 m1, End := hhmm h2 m2 } = true ↔
        h1 * 3600 + m1 * 60 ≤ t.wall.hour * 3600 + t.wall.minute * 60 + t.wall.second ∨
        t.wall.hour * 3600 + t.wall.minute * 60 + t.wall.second < h2 * 3600 + m2 * 60)) ∧
    (inWindowAt ⟨⟨0, 29, 59, 0⟩, 28800, Location.fixed 28800⟩
        { Start := hhmm 0 30, End := hhmm 6 0 } = false ∧
     inWindowAt ⟨⟨0, 30, 0, 0⟩, 28800, Location.fixed 28800⟩
        { Start := hhmm 0 30, End := hhmm 6 0 } = true ∧
     inWindowAt ⟨⟨5, 59, 59, 0⟩, 28800, Location.fixed 28800⟩
        { Start := hhmm 0 30, End := hhmm 6 0 } = true ∧
     inWindowAt ⟨⟨6, 0, 0, 0⟩, 28800, Location.fixed 28800⟩
        { Start := hhmm 0 30, End := hhmm 6 0 } = false ∧
     inWindowAt ⟨⟨23, 59, 0, 0⟩, 28800, Location.fixed 28800⟩
        { Start := hhmm 22 0, End := hhmm 6 0 } = true ∧
     inWindowAt ⟨⟨3, 0, 0, 0⟩, 28800, Location.fixed 28800⟩
        { Start := hhmm 22 0, End := hhmm 6 0 } = true ∧
     inWindowAt ⟨⟨12, 0, 0, 0⟩, 28800, Location.fixed 28800⟩
        { Start := hhmm 22 0, End := hhmm 6 0 } = false) := by
  have hw := inWindow_wall_half_open t.wall h1 m1 h2 m2 hh1 hm1 hh2 hm2 hns
  rw [inWindowAt_of_no_change t _ hc ho]
  exact ⟨hw.1, hw.2.1, by decide⟩

/-- Witness for the amended C7: at UTC+8, 23:59:30 lies in the window 22:00-06:00, which
crosses midnight. -/
theorem inWindowAt_half_open_witness :
    inWindowAt ⟨⟨23, 59, 30, 0⟩, 28800, Location.fixed 28800⟩
      { Start := hhmm 22 0, End := hhmm 6 0 } = true :=
  ((inWindowAt_half_open ⟨⟨23, 59, 30, 0⟩, 28800, Location.fixed 28800⟩ 22 0 6 0
    (by decide) (by decide) (by decide) (by decide) (by decide) rfl rfl).2.1
      (by decide)).mpr (Or.inl (by decide))

/-- C8, the code at the failing input: the bytes of `"0A:00"` have length 5 and a colon in
the middle, and `'A' - '0' = 17`, so `parseClock` returns `(17, 0)` and not `(0, 0)`
although `'A'` is not a decimal digit. -/
theorem parseClock_accepts_non_digit :
    "0A:00".toList.map Char.toNat = [48, 65, 58, 48, 48] ∧
    parseClock [48, 65, 58, 48, 48] = (17, 0) ∧
    parseClock [48, 65, 58, 48, 48] ≠ (0, 0) := by
  decide

/-! ## Server.simulate -/

theorem wrap64_of_isInt64 (x : Int) (h : isInt64 x) : wrap64 x = x := by
  unfold isInt64 at h
  unfold wrap64
  omega

theorem intnArg_of_lt (J : Int) (h0 : 0 < J) (h : J < 4611686018427387904) :
    wrap64 (wrap64 (J * 2) + 1) = J * 2 + 1 := by
  unfold wrap64
  omega

theorem intnArg_of_ge (J : Int) (h : 4611686018427387904 ≤ J) (hi : isInt64 J) :
    wrap64 (wrap64 (J * 2) + 1) ≤ 0 := by
  unfold isInt64 at hi
  unfold wrap64
  omega

theorem targetDelay64_panics (cfg : LineConfig) (env : SimEnv)
    (h : 4611686018427387904 ≤ cfg.JitterMs) (hi : isInt64 cfg.JitterMs) :
    targetDelay64 cfg env = Except.error Abort.panic := by
  have hpos : cfg.JitterMs > 0 := by omega
  simp only [targetDelay64, hpos, if_true, intnArg_of_ge cfg.JitterMs h hi]

theorem targetDelay64_returns (cfg : LineConfig) (env : SimEnv)
    (h : cfg.JitterMs < 4611686018427387904) :
    ∃ d, targetDelay64 cfg env = Except.ok d ∧ ∀ e ∈ d.2, e.isRecord = false := by
  by_cases hpos : cfg.JitterMs > 0
  · have hn : ¬ cfg.JitterMs * 2 + 1 ≤ 0 := by omega
    by_cases hs : wrap64 (cfg.BaseLatencyMs + wrap64 (env.jitterDraw - cfg.JitterMs)) ≥ 0
    · refine ⟨(wrap64 (cfg.BaseLatencyMs + wrap64 (env.jitterDraw - cfg.JitterMs)),
        [Effect.intn (cfg.JitterMs * 2 + 1)]), ?_, ?_⟩
      · simp only [targetDelay64, hpos, if_true, intnArg_of_lt cfg.JitterMs hpos h, hn,
          if_false, hs]
      · intro e he
        simp only [List.mem_singleton] at he
        rw [he]; rfl
    · refine ⟨(cfg.BaseLatencyMs, [Effect.intn (cfg.JitterMs * 2 + 1)]), ?_, ?_⟩
      · simp only [targetDelay64, hpos, if_true, intnArg_of_lt cfg.JitterMs hpos h, hn,
          if_false, hs]
      · intro e he
        simp only [List.mem_singleton] at he
        rw [he]; rfl
  · refine ⟨(cfg.BaseLatencyMs, []), ?_, ?_⟩
    · simp only [targetDelay64, hpos, if_false]
    · intro e he
      simp at he

theorem simulate64_panics (cfg : LineConfig) (env : SimEnv)
    (hnb : (cfg.NightBlockEnabled && inWindowAt env.time cfg.NightBlockWindow) = false)
    (hen : cfg.Enabled = true)
    (h : 4611686018427387904 ≤ cfg.JitterMs) (hi : isInt64 cfg.JitterMs) :
    simulate64 cfg env = Except.error Abort.panic := by
  simp [simulate64, hnb, hen, targetDelay64_panics cfg env h hi]

theorem simulate64_of_delay (cfg : LineConfig) (env : SimEnv) (d : Int × List Effect)
    (hnb : (cfg.NightBlockEnabled && inWindowAt env.time cfg.NightBlockWindow) = false)
    (hen : cfg.Enabled = true) (hd : targetDelay64 cfg env = Except.ok d) :
    simulate64 cfg env = Except.ok (simulateTail cfg env d.1 d.2) := by
  simp [simulate64, hnb, hen, hd]

/-- The decision procedure over unbounded integers is the tail of its delay block. -/
theorem simulate_eq_tail (cfg : LineConfig) (env : SimEnv)
    (hnb : (cfg.NightBlockEnabled && inWindow env.now cfg.NightBlockWindow) = false)
    (hen : cfg.Enabled = true) :
    simulate cfg env
      = simulateTail cfg env (targetDelay cfg env).1 (targetDelay cfg env).2 := by
  simp [simulate, simulateTail, hnb, hen]

/-- When no sum or product leaves the 64-bit range the delay block is the one over
unbounded integers. -/
theorem targetDelay64_eq_targetDelay (cfg : LineConfig) (env : SimEnv)
    (hj : cfg.JitterMs < 4611686018427387904)
    (hdraw : 0 < cfg.JitterMs →
      0 ≤ env.jitterDraw ∧ env.jitterDraw ≤ 2 * cfg.JitterMs ∧
      isInt64 (cfg.BaseLatencyMs + (env.jitterDraw - cfg.JitterMs))) :
    targetDelay64 cfg env = Except.ok (targetDelay cfg env) := by
  by_cases hpos : cfg.JitterMs > 0
  · obtain ⟨h0, h1, hsum⟩ := hdraw hpos
    have hn : ¬ cfg.JitterMs * 2 + 1 ≤ 0 := by omega
    have hjw : wrap64 (env.jitterDraw - cfg.JitterMs) = env.jitterDraw - cfg.JitterMs :=
      wrap64_of_isInt64 _ (by unfold isInt64; omega)
    simp only [targetDelay64, targetDelay, hpos, if_true, intnArg_of_lt cfg.JitterMs hpos hj,
      hn, if_false, hjw, wrap64_of_isInt64 _ hsum]
    split <;> rfl
  · simp only [targetDelay64, targetDelay, hpos, if_false]

/-- On its domain `simulate` is `simulate64`: no clock change on the date of `now`, and no
sum or product outside the 64-bit range. -/
theorem simulate64_eq_simulate (cfg : LineConfig) (env : SimEnv)
    (hc : env.loc.change = none) (ho : env.nowOffset = env.loc.offset)
    (hj : cfg.JitterMs < 4611686018427387904)
    (hdraw : 0 < cfg.JitterMs →
      0 ≤ env.jitterDraw ∧ env.jitterDraw ≤ 2 * cfg.JitterMs ∧
      isInt64 (cfg.BaseLatencyMs + (env.jitterDraw - cfg.JitterMs))) :
    simulate64 cfg env = Except.ok (simulate cfg env) := by
  have hw : inWindowAt env.time cfg.NightBlockWindow = inWindow env.now cfg.NightBlockWindow :=
    inWindowAt_of_no_change env.time _ hc ho
  by_cases hnb : (cfg.NightBlockEnabled && inWindow env.now cfg.NightBlockWindow) = true
  · simp [simulate64, simulate, hw, hnb]
  · have hnb1 : (cfg.NightBlockEnabled && inWindow env.now cfg.NightBlockWindow) = false := by
      simpa using hnb
    cases hen : cfg.Enabled
    · simp [simulate64, simulate, hw, hnb1, hen]
    · have hnb2 : (cfg.NightBlockEnabled && inWindowAt env.time cfg.NightBlockWindow)
          = false := by rw [hw]; exact hnb1
      rw [simulate64_of_delay cfg env _ hnb2 hen (targetDelay64_eq_targetDelay cfg env hj hdraw),
        simulate_eq_tail cfg env hnb1 hen]

/-- C12. For an enabled line outside its night block with `ErrorRate = 1` and
`TimeoutRate = 0`, every error roll in `[0, 1)` and no cancellation: when
`JitterMs < 2^62`, `simulate` answers 502 and records the sample as not ok and not a
timeout, and no timeout roll is drawn; when `JitterMs ≥ 2^62`, the argument
`JitterMs*2+1` of `Intn` wraps to a value `≤ 0`, `Intn` panics and `simulate` neither
classifies nor records the request. -/
theorem simulate64_always_error (cfg : LineConfig) (env : SimEnv)
    (hnb : (cfg.NightBlockEnabled && inWindowAt env.time cfg.NightBlockWindow) = false)
    (hen : cfg.Enabled = true) (he : cfg.ErrorRate = 1) (ht : cfg.TimeoutRate = 0)
    (hroll : 0 ≤ env.errorRoll ∧ env.errorRoll < 1)
    (hcancel : env.cancelInNormalWait = false) :
    (cfg.JitterMs < 4611686018427387904 →
      ∃ d, targetDelay64 cfg env = Except.ok d ∧
        simulate64 cfg env = Except.ok
          { status := 502, ok := false, error := "simulated upstream error",
            effects := d.2 ++
              [Effect.wait d.1, Effect.float64,
               Effect.record env.startSec env.elapsedMs false false] }) ∧
    (4611686018427387904 ≤ cfg.JitterMs → isInt64 cfg.JitterMs →
      simulate64 cfg env = Except.error Abort.panic) := by
  refine ⟨fun hj => ?_, fun hj hi => simulate64_panics cfg env hnb hen hj hi⟩
  obtain ⟨d, hd, _⟩ := targetDelay64_returns cfg env hj
  refine ⟨d, hd, ?_⟩
  rw [simulate64_of_delay cfg env d hnb hen hd]
  simp [simulateTail, he, ht, hroll.2, hcancel]

/-- Witness for C12: the inner-unified line at noon with the two rates set to 0 and 1
answers 502; with `JitterMs = 2^62` in addition the call panics. -/
theorem simulate64_always_error_witness :
    (∃ d, targetDelay64 { defaultInnerUnified with ErrorRate := 1, TimeoutRate := 0 }
          { sampleEnv with now := ⟨12, 0, 0, 0⟩ } = Except.ok d ∧
        simulate64 { defaultInnerUnified with ErrorRate := 1, TimeoutRate := 0 }
          { sampleEnv with now := ⟨12, 0, 0, 0⟩ } = Except.ok
            { status := 502, ok := false, error := "simulated upstream error",
              effects := d.2 ++
                [Effect.wait d.1, Effect.float64,
                 Effect.record 1700000000 0 false false] }) ∧
    simulate64
        { defaultInnerUnified with
          ErrorRate := 1, TimeoutRate := 0, JitterMs := 4611686018427387904 }
        { sampleEnv with now := ⟨12, 0, 0, 0⟩ } = Except.error Abort.panic :=
  ⟨(simulate64_always_error { defaultInnerUnified with ErrorRate := 1, TimeoutRate := 0 }
      { sampleEnv with now := ⟨12, 0, 0, 0⟩ } (by decide) (by decide) rfl rfl
      (by norm_num [sampleEnv]) rfl).1 (by decide),
   (simulate64_always_error
      { defaultInnerUnified with
        ErrorRate := 1, TimeoutRate := 0, JitterMs := 4611686018427387904 }
      { sampleEnv with now := ⟨12, 0, 0, 0⟩ } (by decide) (by decide) rfl rfl
      (by norm_num [sampleEnv]) rfl).2 (by decide) (by unfold isInt64; decide)⟩

/-- C13. For an enabled line outside its night block with `TimeoutRate = 1` and every
timeout roll in `[0, 1)`: when `JitterMs < 2^62`, `simulate` enters the timeout wait of
`TimeoutMs` and answers 504 with a sample recorded as a timeout, whether the wait elapses
or is cancelled; the steps are the jitter draw (if any), the timeout roll, that wait and
the `record`, so the normal wait and the error roll are not reached. When
`JitterMs ≥ 2^62`, the argument `JitterMs*2+1` of `Intn` wraps to a value `≤ 0`, `Intn`
panics before the timeout roll and `simulate` neither waits, classifies nor records. -/
theorem simulate64_always_timeout (cfg : LineConfig) (env : SimEnv)
    (hnb : (cfg.NightBlockEnabled && inWindowAt env.time cfg.NightBlockWindow) = false)
    (hen : cfg.Enabled = true) (ht : cfg.TimeoutRate = 1)
    (hroll : 0 ≤ env.timeoutRoll ∧ env.timeoutRoll < 1) :
    (cfg.JitterMs < 4611686018427387904 →
      ∃ d, targetDelay64 cfg env = Except.ok d ∧
        simulate64 cfg env = Except.ok
          { status := 504, ok := false,
            error := if env.cancelInTimeoutWait then "client cancelled"
              else "simulated timeout",
            effects := d.2 ++
              [Effect.float64, Effect.wait cfg.TimeoutMs,
               Effect.record env.startSec env.elapsedMs false true] }) ∧
    (4611686018427387904 ≤ cfg.JitterMs → isInt64 cfg.JitterMs →
      simulate64 cfg env = Except.error Abort.panic) := by
  refine ⟨fun hj => ?_, fun hj hi => simulate64_panics cfg env hnb hen hj hi⟩
  obtain ⟨d, hd, _⟩ := targetDelay64_returns cfg env hj
  refine ⟨d, hd, ?_⟩
  rw [simulate64_of_delay cfg env d hnb hen hd]
  cases hc : env.cancelInTimeoutWait <;>
    simp [simulateTail, ht, hroll.2, hc]

/-- Witness for C13: the inner-unified line at noon with `TimeoutRate = 1` answers 504
after the timeout wait; with `JitterMs = 2^62` in addition the call panics. -/
theorem simulate64_always_timeout_witness :
    (∃ d, targetDelay64 { defaultInnerUnified with TimeoutRate := 1 }
          { sampleEnv with now := ⟨12, 0, 0, 0⟩ } = Except.ok d ∧
        simulate64 { defaultInnerUnified with TimeoutRate := 1 }
          { sampleEnv with now := ⟨12, 0, 0, 0⟩ } = Except.ok
            { status := 504, ok := false, error := "simulated timeout",
              effects := d.2 ++
                [Effect.float64, Effect.wait 15000,
                 Effect.record 1700000000 0 false true] }) ∧
    simulate64 { defaultInnerUnified with TimeoutRate := 1, JitterMs := 4611686018427387904 }
        { sampleEnv with now := ⟨12, 0, 0, 0⟩ } = Except.error Abort.panic :=
  ⟨(simulate64_always_timeout { defaultInnerUnified with TimeoutRate := 1 }
      { sampleEnv with now := ⟨12, 0, 0, 0⟩ } (by decide) (by decide) rfl
      (by norm_num [sampleEnv])).1 (by decide),
   (simulate64_always_timeout
      { defaultInnerUnified with TimeoutRate := 1, JitterMs := 4611686018427387904 }
      { sampleEnv with now := ⟨12, 0, 0, 0⟩ } (by decide) (by decide) rfl
      (by norm_num [sampleEnv])).2 (by decide) (by unfold isInt64; decide)⟩

/-! ## LineMetrics -/

theorem copySlice_length (dst src : List Int) : (copySlice dst src).length = dst.length := by
  simp only [copySlice, List.length_append, List.length_take, List.length_drop]
  omega

theorem latencyRing_add_some (r : latencyRing) (v : Int) (h : r.pos < r.vals.length) :
    ∃ r1, r.add v = some r1 ∧ r1.pos < r1.vals.length ∧ 0 < r1.count ∧
      r1.vals.length = r.vals.length := by
  refine ⟨_, by simp only [latencyRing.add, h, if_true]; rfl, ?_, ?_, ?_⟩
  · simp only [List.length_set]
    exact Nat.mod_lt _ (by omega)
  · simp only [List.length_set]
    split <;> omega
  · simp

theorem latencyRing_snapshot_some (r : latencyRing) (h : r.pos < r.vals.length) :
    ∃ vals, r.snapshot = some vals ∧ vals.length = r.count := by
  by_cases hc : r.count < r.vals.length
  · refine ⟨copySlice (List.replicate r.count 0) (r.vals.take r.count), ?_, ?_⟩
    · simp [latencyRing.snapshot, hc, sliceTo, Nat.le_of_lt hc]
    · simp [copySlice_length]
  · have hk : r.vals.length - r.pos
        ≤ (copySlice (List.replicate r.count 0) (r.vals.drop r.pos)).length := by
      rw [copySlice_length, List.length_replicate]
      omega
    refine ⟨_, by
      simp only [latencyRing.snapshot, hc, if_false, sliceFrom, sliceTo, Nat.le_of_lt h,
        if_true, Option.some_bind, copyAt, hk]
      rfl, ?_⟩
    simp only [List.length_append, List.length_take, copySlice_length, List.length_drop,
      List.length_replicate]
    omega

theorem percentile_mid_mem (vals : List Int) (p : ℚ) (hne : vals ≠ [])
    (h0 : 0 < p) (h99 : p ≤ 99) : ∃ x, percentile vals p = some x ∧ x ∈ vals := by
  have hlen : 0 < vals.length := List.length_pos.mpr hne
  obtain ⟨i, hi, hle⟩ := f64_index_le_of_le_99 (vals.length - 1) p h0 h99
  have hil : i < (sortInts vals).length := by
    rw [sortInts_length]; omega
  refine ⟨(sortInts vals)[i], ?_, (sortInts_perm vals).mem_iff.mp (List.getElem_mem _)⟩
  rw [(percentile_mid_eq vals p hne h0 (lt_of_le_of_lt h99 (by norm_num))).1, ← hi]
  exact indexInt_ofNat _ _ hil

theorem newLineMetrics_cursor :
    newLineMetrics.Ring.pos < newLineMetrics.Ring.vals.length := by
  show 0 < (List.replicate 1024 (0 : Int)).length
  rw [List.length_replicate]
  norm_num

/-- The effect of one `addSample` on a recorder whose mutex is free and whose ring has a
cell under its cursor. -/
theorem addSample_spec (m : LineMetrics) (sec latencyMs : Int) (ok isTimeout : Bool)
    (hmu : m.mu = false) (hpos : m.Ring.pos < m.Ring.vals.length) :
    ∃ m1 vals, m.addSample sec latencyMs ok isTimeout = Except.ok m1 ∧
      m1.Requests = m.Requests + 1 ∧
      m1.Success = m.Success + (if ok then 1 else 0) ∧
      m1.Timeouts = m.Timeouts + (if !ok && isTimeout then 1 else 0) ∧
      m1.Errors = m.Errors + (if !ok && !isTimeout then 1 else 0) ∧
      m.Ring.add latencyMs = some m1.Ring ∧
      m1.Win = m.Win.add sec latencyMs ok isTimeout ∧
      m1.Ring.snapshot = some vals ∧ vals ≠ [] ∧
      percentile vals 50 = some m1.P50 ∧ percentile vals 95 = some m1.P95 ∧
      percentile vals 99 = some m1.P99 ∧
      m1.P50 ∈ vals ∧ m1.P95 ∈ vals ∧ m1.P99 ∈ vals ∧
      m1.mu = false ∧ m1.Ring.pos < m1.Ring.vals.length := by
  obtain ⟨ring, hadd, hpos1, hcount, _⟩ := latencyRing_add_some m.Ring latencyMs hpos
  obtain ⟨vals, hsnap, hvlen⟩ := latencyRing_snapshot_some ring hpos1
  have hne : vals ≠ [] := by
    intro h
    rw [h] at hvlen
    simp at hvlen
    omega
  obtain ⟨p50, h50, hm50⟩ := percentile_mid_mem vals 50 hne (by norm_num) (by norm_num)
  obtain ⟨p95, h95, hm95⟩ := percentile_mid_mem vals 95 hne (by norm_num) (by norm_num)
  obtain ⟨p99, h99, hm99⟩ := percentile_mid_mem vals 99 hne (by norm_num) (by norm_num)
  have hbody : ({ m with mu := true }).addSampleBody sec latencyMs ok isTimeout
      = some
        { Requests := m.Requests + 1,
          Success := m.Success + (if ok then 1 else 0),
          Errors := m.Errors + (if !ok && !isTimeout then 1 else 0),
          Timeouts := m.Timeouts + (if !ok && isTimeout then 1 else 0),
          P50 := p50, P95 := p95, P99 := p99, Ring := ring,
          Win := m.Win.add sec latencyMs ok isTimeout, mu := true } := by
    cases ok <;> cases isTimeout <;>
      simp [LineMetrics.addSampleBody, hadd, hsnap, h50, h95, h99]
  refine ⟨{ Requests := m.Requests + 1,
            Success := m.Success + (if ok then 1 else 0),
            Errors := m.Errors + (if !ok && !isTimeout then 1 else 0),
            Timeouts := m.Timeouts + (if !ok && isTimeout then 1 else 0),
            P50 := p50, P95 := p95, P99 := p99, Ring := ring,
            Win := m.Win.add sec latencyMs ok isTimeout, mu := false }, vals, ?_, ?_⟩
  · simp only [LineMetrics.addSample, hmu, mutexLock, Bool.false_eq_true, if_false, hbody,
      mutexUnlock, if_true]
  · exact ⟨rfl, rfl, rfl, rfl, hadd, rfl, hsnap, hne, h50, h95, h99, hm50, hm95, hm99, rfl,
      hpos1⟩

/-! ## Server.simulate and the metrics of a line -/

/-- From the timeout roll on, every path of `simulate` adds steps that are no `record` and
ends with its only `record` call, whose flags follow the status: ok for 200, timeout for
504, neither for 502. -/
theorem simulateTail_effects_shape (cfg : LineConfig) (env : SimEnv) (delay : Int)
    (fx : List Effect) (hfx : ∀ e ∈ fx, e.isRecord = false) :
    ∃ pre ok isTimeout,
      (simulateTail cfg env delay fx).effects
        = pre ++ [Effect.record env.startSec env.elapsedMs ok isTimeout] ∧
      (∀ e ∈ pre, e.isRecord = false) ∧
      ok = decide ((simulateTail cfg env delay fx).status = 200) ∧
      isTimeout = decide ((simulateTail cfg env delay fx).status = 504) ∧
      (simulateTail cfg env delay fx).ok = ok ∧
      (simulateTail cfg env delay fx).status ∈ [200, 502, 503, 504] := by
  have hpre1 : ∀ e ∈ (if cfg.TimeoutRate > 0 then fx ++ [Effect.float64] else fx),
      e.isRecord = false := by
    intro e he
    split at he
    · rcases List.mem_append.mp he with h | h
      · exact hfx e h
      · simp at h; subst h; rfl
    · exact hfx e he
  unfold simulateTail
  simp only []
  split
  · have hpre2 : ∀ e ∈ (if cfg.TimeoutRate > 0 then fx ++ [Effect.float64] else fx)
        ++ [Effect.wait cfg.TimeoutMs], e.isRecord = false := by
      intro e he
      rcases List.mem_append.mp he with h | h
      · exact hpre1 e h
      · simp at h; subst h; rfl
    split
    · exact ⟨_, false, true, rfl, hpre2, rfl, rfl, rfl, by simp⟩
    · exact ⟨_, false, true, rfl, hpre2, rfl, rfl, rfl, by simp⟩
  · have hpre2 : ∀ e ∈ (if cfg.TimeoutRate > 0 then fx ++ [Effect.float64] else fx)
        ++ [Effect.wait delay], e.isRecord = false := by
      intro e he
      rcases List.mem_append.mp he with h | h
      · exact hpre1 e h
      · simp at h; subst h; rfl
    have hpre3 : ∀ e ∈ (if cfg.ErrorRate > 0
        then ((if cfg.TimeoutRate > 0 then fx ++ [Effect.float64] else fx)
          ++ [Effect.wait delay]) ++ [Effect.float64]
        else (if cfg.TimeoutRate > 0 then fx ++ [Effect.float64] else fx)
          ++ [Effect.wait delay]), e.isRecord = false := by
      intro e he
      split at he
      · rcases List.mem_append.mp he with h | h
        · exact hpre2 e h
        · simp at h; subst h; rfl
      · exact hpre2 e he
    split
    · exact ⟨_, false, true, rfl, hpre2, rfl, rfl, rfl, by simp⟩
    · split
      · exact ⟨_, false, false, rfl, hpre3, rfl, rfl, rfl, by simp⟩
      · exact ⟨_, true, false, rfl, hpre3, rfl, rfl, rfl, by simp⟩

/-- A call of `simulate` that is night-blocked, on a disabled line, or with
`JitterMs < 2^62` returns, and its steps end with its only `record` call, whose flags
follow the status: ok for 200, timeout for 504, neither for 502 and 503. -/
theorem simulate64_effects_shape (cfg : LineConfig) (env : SimEnv)
    (h : (cfg.NightBlockEnabled && inWindowAt env.time cfg.NightBlockWindow) = true ∨
      cfg.Enabled = false ∨ cfg.JitterMs < 4611686018427387904) :
    ∃ r pre ok isTimeout,
      simulate64 cfg env = Except.ok r ∧
      r.effects = pre ++ [Effect.record env.startSec env.elapsedMs ok isTimeout] ∧
      (∀ e ∈ pre, e.isRecord = false) ∧
      ok = decide (r.status = 200) ∧
      isTimeout = decide (r.status = 504) ∧
      r.ok = ok ∧
      r.status ∈ [200, 502, 503, 504] := by
  by_cases hnb : (cfg.NightBlockEnabled && inWindowAt env.time cfg.NightBlockWindow) = true
  · refine ⟨⟨503, false, "nightly window blocked",
        [Effect.record env.startSec env.elapsedMs false false]⟩,
      [], false, false, ?_, rfl, by simp, rfl, rfl, rfl, by simp⟩
    simp only [simulate64, hnb, if_true]
  · have hnb1 : (cfg.NightBlockEnabled && inWindowAt env.time cfg.NightBlockWindow)
        = false := by simpa using hnb
    cases hen : cfg.Enabled
    · refine ⟨⟨503, false, "line disabled",
          [Effect.record env.startSec env.elapsedMs false false]⟩,
        [], false, false, ?_, rfl, by simp, rfl, rfl, rfl, by simp⟩
      simp only [simulate64, hnb1, hen, Bool.false_eq_true, if_false, Bool.not_false, if_true]
    · have hj : cfg.JitterMs < 4611686018427387904 := by
        rcases h with h | h | h
        · exact absurd h hnb
        · rw [hen] at h; exact absurd h (by decide)
        · exact h
      obtain ⟨d, hd, hfx⟩ := targetDelay64_returns cfg env hj
      obtain ⟨pre, ok, isTimeout, heff, hpre, hok, hto, hokf, hstatus⟩ :=
        simulateTail_effects_shape cfg env d.1 d.2 hfx
      exact ⟨_, pre, ok, isTimeout, simulate64_of_delay cfg env d hnb1 hen hd, heff, hpre,
        hok, hto, hokf, hstatus⟩

theorem applyEffects_no_record (s : Server) (id : LineID) (pre rest : List Effect)
    (h : ∀ e ∈ pre, e.isRecord = false) :
    s.applyEffects id (pre ++ rest) = s.applyEffects id rest := by
  induction pre with
  | nil => rfl
  | cons e pre ih =>
    have he : e.isRecord = false := h e (List.mem_cons_self _ _)
    have ih1 := ih (fun x hx => h x (List.mem_cons_of_mem _ hx))
    cases e with
    | record a b c d => simp [Effect.isRecord] at he
    | intn n => simpa [Server.applyEffects] using ih1
    | float64 => simpa [Server.applyEffects] using ih1
    | wait ms => simpa [Server.applyEffects] using ih1

/-- C14. For a line `id` that has a `LineMetrics` in the server (mutex free, ring cursor on
a cell) and every profile. When the call is night-blocked, the line is disabled, or
`JitterMs < 2^62`, `simulate` returns on every path, and its steps are some steps without
`record` followed by exactly one `record`, whose flags follow the outcome (200: ok; 504:
not ok and timeout; 502 and 503: not ok and not timeout); that call is one `addSample` on
the metrics of `id`, which returns; afterwards the lifetime `Requests` of `id` is one
larger and the metrics of every other line are as before. On an enabled line outside its
night block with `JitterMs ≥ 2^62` the argument `JitterMs*2+1` of `Intn` wraps to a
value `≤ 0`, `Intn` panics, and `simulate` ends without any `addSample`. -/
theorem simulate_records_once (s : Server) (id : LineID) (m : LineMetrics)
    (cfg : LineConfig) (env : SimEnv)
    (hm : s.metrics id = some m) (hmu : m.mu = false)
    (hpos : m.Ring.pos < m.Ring.vals.length) :
    ((cfg.NightBlockEnabled && inWindowAt env.time cfg.NightBlockWindow) = true ∨
        cfg.Enabled = false ∨ cfg.JitterMs < 4611686018427387904 →
      ∃ r pre ok isTimeout m1 s1,
        simulate64 cfg env = Except.ok r ∧
        r.effects = pre ++ [Effect.record env.startSec env.elapsedMs ok isTimeout] ∧
        (∀ e ∈ pre, e.isRecord = false) ∧
        ok = decide (r.status = 200) ∧
        isTimeout = decide (r.status = 504) ∧
        r.status ∈ [200, 502, 503, 504] ∧
        m.addSample env.startSec env.elapsedMs ok isTimeout = Except.ok m1 ∧
        s.simulate id cfg env = Except.ok (r, s1) ∧
        s1.metrics id = some m1 ∧
        m1.Requests = m.Requests + 1 ∧
        (∀ other, other ≠ id → s1.metrics other = s.metrics other)) ∧
    ((cfg.NightBlockEnabled && inWindowAt env.time cfg.NightBlockWindow) = false →
      cfg.Enabled = true → 4611686018427387904 ≤ cfg.JitterMs → isInt64 cfg.JitterMs →
      simulate64 cfg env = Except.error Abort.panic ∧
      s.simulate id cfg env = Except.error Abort.panic) := by
  constructor
  · intro h
    obtain ⟨r, pre, ok, isTimeout, hsim, heff, hpre, hok, hto, _, hstatus⟩ :=
      simulate64_effects_shape cfg env h
    obtain ⟨m1, vals, hadd, hreq, _⟩ :=
      addSample_spec m env.startSec env.elapsedMs ok isTimeout hmu hpos
    refine ⟨r, pre, ok, isTimeout, m1,
      { s with metrics := Function.update s.metrics id (some m1) },
      hsim, heff, hpre, hok, hto, hstatus, hadd, ?_, ?_, hreq, ?_⟩
    · simp only [Server.simulate, hsim, heff, applyEffects_no_record s id pre _ hpre,
        Server.applyEffects, Server.record, hm, hadd]
    · simp
    · intro other hne
      simp [Function.update, hne]
  · intro hnb hen hj hi
    have hp := simulate64_panics cfg env hnb hen hj hi
    refine ⟨hp, ?_⟩
    simp only [Server.simulate, hp]

/-- Witness for C14: a blocked request on the inner-unified line of a new server adds one
sample to that line and leaves the outer-zf line untouched; at noon with
`JitterMs = 2^62` the call panics. -/
theorem simulate_records_once_witness :
    (∃ r m1 s1,
      NewServer.simulate "inner-unified" defaultInnerUnified sampleEnv = Except.ok (r, s1) ∧
      r.status = 503 ∧
      s1.metrics "inner-unified" = some m1 ∧ m1.Requests = 1 ∧
      s1.metrics "outer-zf" = some newLineMetrics) ∧
    NewServer.simulate "inner-unified"
        { defaultInnerUnified with JitterMs := 4611686018427387904 }
        { sampleEnv with now := ⟨12, 0, 0, 0⟩ } = Except.error Abort.panic := by
  constructor
  · obtain ⟨r, _, _, _, m1, s1, hr, _, _, _, _, _, _, hsim, hm1, hreq, hother⟩ :=
      (simulate_records_once NewServer "inner-unified" newLineMetrics defaultInnerUnified
        sampleEnv rfl rfl newLineMetrics_cursor).1 (Or.inl (by decide))
    have hr2 : simulate64 defaultInnerUnified sampleEnv = Except.ok
        { status := 503, ok := false, error := "nightly window blocked",
          effects := [Effect.record 1700000000 0 false false] } := rfl
    rw [hr2] at hr
    refine ⟨r, m1, s1, hsim, ?_, hm1, ?_, ?_⟩
    · cases hr; rfl
    · rw [hreq]; rfl
    · rw [hother "outer-zf" (by decide)]; rfl
  · exact ((simulate_records_once NewServer "inner-unified" newLineMetrics
      { defaultInnerUnified with JitterMs := 4611686018427387904 }
      { sampleEnv with now := ⟨12, 0, 0, 0⟩ } rfl rfl newLineMetrics_cursor).2
      (by decide) (by decide) (by decide) (by unfold isInt64; decide)).2

/-! ## Invariants of a recorder -/

theorem reset_free_aborts (m : LineMetrics) (hmu : m.mu = false) :
    m.reset = Except.error (Abort.fatal "sync: unlock of unlocked mutex") := by
  simp only [LineMetrics.reset, hmu, mutexLock, Bool.false_eq_true, if_false]
  rfl

theorem reset_held_blocks (m : LineMetrics) (hmu : m.mu = true) :
    m.reset = Except.error Abort.blocked := by
  simp only [LineMetrics.reset, hmu, mutexLock, if_true]

theorem reset_not_ok (m m1 : LineMetrics) : m.reset ≠ Except.ok m1 := by
  cases hmu : m.mu
  · rw [reset_free_aborts m hmu]; simp
  · rw [reset_held_blocks m hmu]; simp

theorem RingInv_cursor (xs : List Int) (r : latencyRing) (h : RingInv 1024 xs r) :
    r.pos < r.vals.length := by
  obtain ⟨hlen, hpos, _, _⟩ := h
  rw [hpos, hlen]
  exact Nat.mod_lt _ (by norm_num)

theorem MetricsInv_new : MetricsInv [] newLineMetrics :=
  ⟨rfl, RingInv_new 1024, rfl⟩

theorem MetricsInv_addSample (xs : List Int) (m : LineMetrics) (sec latencyMs : Int)
    (ok isTimeout : Bool) (h : MetricsInv xs m) :
    ∃ m1, m.addSample sec latencyMs ok isTimeout = Except.ok m1 ∧
      MetricsInv (xs ++ [latencyMs]) m1 := by
  obtain ⟨hmu, hring, hsum⟩ := h
  obtain ⟨m1, _, hadd, hreq, hs, ht, he, hradd, _, _, _, _, _, _, _, _, _, hmu1, _⟩ :=
    addSample_spec m sec latencyMs ok isTimeout hmu (RingInv_cursor xs m.Ring hring)
  obtain ⟨r1, hr1, hinv1⟩ := RingInv_add 1024 (by norm_num) xs m.Ring latencyMs hring
  have hr : r1 = m1.Ring := Option.some.inj (hr1.symm.trans hradd)
  refine ⟨m1, hadd, hmu1, hr ▸ hinv1, ?_⟩
  rw [hreq, hs, ht, he, hsum]
  cases ok <;> cases isTimeout <;> simp <;> omega

theorem MetricsInv_runOps (ops : List MetricsOp) (xs : List Int) (m m1 : LineMetrics)
    (h : MetricsInv xs m) (hrun : m.runOps ops = Except.ok m1) :
    ∃ ys, MetricsInv ys m1 := by
  induction ops generalizing xs m with
  | nil =>
    simp only [LineMetrics.runOps, Except.ok.injEq] at hrun
    exact ⟨xs, hrun ▸ h⟩
  | cons op ops ih =>
    cases op with
    | addSample sec latencyMs ok isTimeout =>
      obtain ⟨m2, hadd, hinv2⟩ := MetricsInv_addSample xs m sec latencyMs ok isTimeout h
      simp only [LineMetrics.runOps, hadd] at hrun
      exact ih _ m2 hinv2 hrun
    | reset =>
      simp only [LineMetrics.runOps, reset_free_aborts m h.1] at hrun
      cases hrun

theorem MetricsInv_sampleOps (l : List (Int × Int × Bool × Bool)) (xs : List Int)
    (m : LineMetrics) (h : MetricsInv xs m) :
    ∃ m1, m.runOps (sampleOps l) = Except.ok m1 ∧
      MetricsInv (xs ++ sampleLatencies l) m1 := by
  induction l generalizing xs m with
  | nil => exact ⟨m, rfl, by simpa [sampleLatencies] using h⟩
  | cons x l ih =>
    obtain ⟨m2, hadd, hinv2⟩ := MetricsInv_addSample xs m x.1 x.2.1 x.2.2.1 x.2.2.2 h
    obtain ⟨m3, hrun, hinv3⟩ := ih _ m2 hinv2
    refine ⟨m3, ?_, ?_⟩
    · simp only [sampleOps, List.map_cons, LineMetrics.runOps, hadd]
      exact hrun
    · simpa [sampleLatencies] using hinv3

/-- C15. One `addSample` on a recorder (mutex free, ring cursor on a cell) returns with
`Requests` one larger and exactly one of `Success` (if ok), `Timeouts` (if not ok and
timeout) or `Errors` (otherwise) one larger. Hence `Requests = Success + Errors + Timeouts`
in every state that a sequence of `addSample` and `reset` calls on a fresh recorder
returns; every sequence of `addSample` calls does return such a state; and the state that
the assignment of `reset` installs satisfies the equation as well. -/
theorem addSample_counter_invariant (m : LineMetrics) (sec latencyMs : Int)
    (ok isTimeout : Bool) (ops : List MetricsOp) (mfinal : LineMetrics)
    (l : List (Int × Int × Bool × Bool)) :
    (m.mu = false → m.Ring.pos < m.Ring.vals.length →
      ∃ m1, m.addSample sec latencyMs ok isTimeout = Except.ok m1 ∧
        m1.Requests = m.Requests + 1 ∧
        m1.Success = m.Success + (if ok then 1 else 0) ∧
        m1.Timeouts = m.Timeouts + (if !ok && isTimeout then 1 else 0) ∧
        m1.Errors = m.Errors + (if !ok && !isTimeout then 1 else 0)) ∧
    (newLineMetrics.runOps ops = Except.ok mfinal →
      mfinal.Requests = mfinal.Success + mfinal.Errors + mfinal.Timeouts) ∧
    (∃ m2, newLineMetrics.runOps (sampleOps l) = Except.ok m2 ∧
      m2.Requests = m2.Success + m2.Errors + m2.Timeouts) ∧
    (m.resetBody.Requests
      = m.resetBody.Success + m.resetBody.Errors + m.resetBody.Timeouts) := by
  refine ⟨?_, ?_, ?_, rfl⟩
  · intro hmu hpos
    obtain ⟨m1, _, hadd, hreq, hs, ht, he, _⟩ :=
      addSample_spec m sec latencyMs ok isTimeout hmu hpos
    exact ⟨m1, hadd, hreq, hs, ht, he⟩
  · intro hrun
    obtain ⟨_, _, _, hsum⟩ := MetricsInv_runOps ops [] newLineMetrics mfinal MetricsInv_new hrun
    exact hsum
  · obtain ⟨m2, hrun, _, _, hsum⟩ := MetricsInv_sampleOps l [] newLineMetrics MetricsInv_new
    exact ⟨m2, hrun, hsum⟩

/-- Witness for C15: a timeout sample on a fresh recorder, and the run of two samples. -/
theorem addSample_counter_invariant_witness :
    (∃ m1, newLineMetrics.addSample 100 7 false true = Except.ok m1 ∧
      m1.Requests = 0 + 1 ∧ m1.Success = 0 + 0 ∧ m1.Timeouts = 0 + 1 ∧ m1.Errors = 0 + 0) ∧
    (∃ m2, newLineMetrics.runOps (sampleOps [(100, 7, true, false), (101, 9, false, false)])
        = Except.ok m2 ∧
      m2.Requests = m2.Success + m2.Errors + m2.Timeouts) :=
  ⟨(addSample_counter_invariant newLineMetrics 100 7 false true [] newLineMetrics []).1
      rfl newLineMetrics_cursor,
   (addSample_counter_invariant newLineMetrics 100 7 false true [] newLineMetrics
      [(100, 7, true, false), (101, 9, false, false)]).2.2.1⟩

/-- C16. After the samples `l` on a fresh recorder (they all return), a further
`addSample` with latency `latencyMs` returns, and the cached `P50`, `P95`, `P99` are
`percentile v 50`, `percentile v 95`, `percentile v 99` for the ring snapshot `v` taken
after the write: `v` is the last `min (n+1) 1024` recorded latencies, the new one
included. Each cached value is an element of `v`, not the value of the empty case; with
non-negative latencies none of them is `-1`. -/
theorem addSample_percentiles (l : List (Int × Int × Bool × Bool)) (sec latencyMs : Int)
    (ok isTimeout : Bool) :
    ∃ m m1 v, newLineMetrics.runOps (sampleOps l) = Except.ok m ∧
      m.addSample sec latencyMs ok isTimeout = Except.ok m1 ∧
      m1.Ring.snapshot = some v ∧
      v = (sampleLatencies l ++ [latencyMs]).drop (l.length + 1 - 1024) ∧
      v.length = min (l.length + 1) 1024 ∧ latencyMs ∈ v ∧
      percentile v 50 = some m1.P50 ∧ percentile v 95 = some m1.P95 ∧
      percentile v 99 = some m1.P99 ∧
      m1.P50 ∈ v ∧ m1.P95 ∈ v ∧ m1.P99 ∈ v ∧
      ((∀ x ∈ sampleLatencies l, 0 ≤ x) → 0 ≤ latencyMs →
        m1.P50 ≠ -1 ∧ m1.P95 ≠ -1 ∧ m1.P99 ≠ -1) := by
  obtain ⟨m, hrun, hmu, hring, _⟩ := MetricsInv_sampleOps l [] newLineMetrics MetricsInv_new
  rw [List.nil_append] at hring
  obtain ⟨m1, v, hadd, _, _, _, _, hradd, _, hsnap, _, h50, h95, h99, hm50, hm95, hm99, _, _⟩ :=
    addSample_spec m sec latencyMs ok isTimeout hmu (RingInv_cursor _ m.Ring hring)
  obtain ⟨r1, hr1, hinv1⟩ :=
    RingInv_add 1024 (by norm_num) (sampleLatencies l) m.Ring latencyMs hring
  have hr : r1 = m1.Ring := Option.some.inj (hr1.symm.trans hradd)
  have hsnap1 := RingInv_snapshot 1024 (by norm_num) _ m1.Ring (hr ▸ hinv1)
  have hlen : (sampleLatencies l).length = l.length := by simp [sampleLatencies]
  have hv : v = (sampleLatencies l ++ [latencyMs]).drop (l.length + 1 - 1024) := by
    have := Option.some.inj (hsnap.symm.trans hsnap1)
    rw [this, List.length_append, List.length_singleton, hlen]
  have hmemv : ∀ x ∈ v, x ∈ sampleLatencies l ++ [latencyMs] := by
    intro x hx
    rw [hv] at hx
    exact List.mem_of_mem_drop hx
  refine ⟨m, m1, v, hrun, hadd, hsnap, hv, ?_, ?_, h50, h95, h99, hm50, hm95, hm99, ?_⟩
  · rw [hv, List.length_drop, List.length_append, List.length_singleton, hlen]
    omega
  · rw [hv, List.drop_append_of_le_length (by rw [hlen]; omega)]
    simp
  · intro hxs hlat
    have hnn : ∀ x ∈ v, 0 ≤ x := by
      intro x hx
      rcases List.mem_append.mp (hmemv x hx) with h | h
      · exact hxs x h
      · simp at h; rw [h]; exact hlat
    refine ⟨?_, ?_, ?_⟩
    · have := hnn _ hm50; omega
    · have := hnn _ hm95; omega
    · have := hnn _ hm99; omega

/-- Witness for C16: latency 9 after one sample of latency 7 on a fresh recorder. -/
theorem addSample_percentiles_witness :
    ∃ m m1 v, newLineMetrics.runOps (sampleOps [(100, 7, true, false)]) = Except.ok m ∧
      m.addSample 101 9 true false = Except.ok m1 ∧ m1.Ring.snapshot = some v ∧
      v = [7, 9] ∧ percentile v 50 = some m1.P50 ∧
      (m1.P50 ≠ -1 ∧ m1.P95 ≠ -1 ∧ m1.P99 ≠ -1) := by
  obtain ⟨m, m1, v, hrun, hadd, hsnap, hv, _, _, h50, _, _, _, _, _, hne⟩ :=
    addSample_percentiles [(100, 7, true, false)] 101 9 true false
  exact ⟨m, m1, v, hrun, hadd, hsnap, hv, h50, hne (by decide) (by decide)⟩

/-! ## reset -/

theorem newLineMetrics_empty :
    newLineMetrics.Requests = 0 ∧ newLineMetrics.Success = 0 ∧ newLineMetrics.Errors = 0 ∧
    newLineMetrics.Timeouts = 0 ∧ newLineMetrics.Ring.snapshot = some [] ∧
    newLineMetrics.Win.window = [] := by
  exact ⟨rfl, rfl, rfl, rfl,
    RingInv_snapshot 1024 (by norm_num) [] newLineMetrics.Ring (RingInv_new 1024), rfl⟩

/-- C18, the code at the failing input. The assignment of `reset` does install the state
of `newLineMetrics()` (zero counters, empty ring snapshot, no bucket), but it overwrites
the held mutex with a free one, so for every line that has a `LineMetrics` with a free
mutex the call `m.reset()` does not return: the deferred `Unlock` stops the process with
`sync: unlock of unlocked mutex`. In particular the loop of `handleResetMetrics` on a new
server aborts at its first line, and no line's metrics outlive the call. -/
theorem resetLine_aborts (s : Server) (id : LineID) (m : LineMetrics) :
    (m.resetBody = newLineMetrics ∧ newLineMetrics.Requests = 0 ∧
      newLineMetrics.Success = 0 ∧ newLineMetrics.Errors = 0 ∧ newLineMetrics.Timeouts = 0 ∧
      newLineMetrics.Ring.snapshot = some [] ∧ newLineMetrics.Win.window = []) ∧
    (s.metrics id = some m → m.mu = false →
      s.resetLine id = Except.error (Abort.fatal "sync: unlock of unlocked mutex")) ∧
    NewServer.resetLines AllLines
      = Except.error (Abort.fatal "sync: unlock of unlocked mutex") := by
  refine ⟨⟨rfl, newLineMetrics_empty⟩, ?_, rfl⟩
  intro hm hmu
  simp only [Server.resetLine, hm, reset_free_aborts m hmu]

/-- C18 at a concrete input: `reset()` on the outer-unified line of a new server. -/
theorem resetLine_aborts_witness :
    NewServer.resetLine "outer-unified"
      = Except.error (Abort.fatal "sync: unlock of unlocked mutex") :=
  (resetLine_aborts NewServer "outer-unified" newLineMetrics).2.1 rfl rfl

/-- C19, the code at the failing input. With the mutex as the held bit `mu`: `reset` takes
the lock, then `*m = *newLineMetrics()` replaces the held mutex by the free mutex of the
fresh value, and the deferred `Unlock` finds the mutex free. So `reset` never returns
normally, and on a recorder whose mutex is free (a fresh one, or one that has taken a
sample) it ends in the fatal error `sync: unlock of unlocked mutex`. -/
theorem reset_unlock_fatal :
    (∀ m m1 : LineMetrics, m.reset ≠ Except.ok m1) ∧
    (({ newLineMetrics with mu := true }).resetBody.mu = false) ∧
    mutexUnlock (({ newLineMetrics with mu := true }).resetBody.mu)
      = Except.error (Abort.fatal "sync: unlock of unlocked mutex") ∧
    newLineMetrics.reset = Except.error (Abort.fatal "sync: unlock of unlocked mutex") ∧
    (∃ m, newLineMetrics.addSample 100 7 true false = Except.ok m ∧
      m.reset = Except.error (Abort.fatal "sync: unlock of unlocked mutex")) := by
  refine ⟨reset_not_ok, rfl, rfl, rfl, ?_⟩
  obtain ⟨m, _, hadd, _, _, _, _, _, _, _, _, _, _, _, _, _, _, hmu, _⟩ :=
    addSample_spec newLineMetrics 100 7 true false rfl newLineMetrics_cursor
  exact ⟨m, hadd, reset_free_aborts m hmu⟩

/-! ## The data points of slidingWindow.snapshot -/

theorem snapshotStep_eq_push (w : slidingWindow) (acc : Series) (s : Int) :
    snapshotStep w acc s
      = acc.push s (pointValues w s).1 (pointValues w s).2.1 (pointValues w s).2.2.1
          (pointValues w s).2.2.2.1 (pointValues w s).2.2.2.2 := by
  unfold snapshotStep pointValues
  cases mapGet w.window s <;> rfl

theorem append_range_shift {α : Type} (f : Int → α) (a : List α) (n : Nat) (s : Int) :
    (a ++ [f s]) ++ (List.range n).map (fun i : Nat => f (s + 1 + i))
      = a ++ (List.range (n + 1)).map (fun i : Nat => f (s + i)) := by
  rw [List.range_succ_eq_map, List.map_cons, List.map_map, List.append_assoc]
  congr 1
  simp only [List.singleton_append, Nat.cast_zero, add_zero, List.cons.injEq, true_and]
  apply List.map_congr_left
  intro i _
  simp only [Function.comp, Nat.succ_eq_add_one, Nat.cast_add, Nat.cast_one]
  congr 1
  omega

theorem snapshotLoop_eq (w : slidingWindow) (last : Int) (n : Nat) (s : Int) (acc : Series)
    (h : s + n = last + 1) :
    snapshotLoop w last n s acc =
      { secs := acc.secs ++ (List.range n).map (fun i : Nat => s + i),
        rps := acc.rps ++ (List.range n).map (fun i : Nat => (pointValues w (s + i)).1),
        avgLatency := acc.avgLatency
          ++ (List.range n).map (fun i : Nat => (pointValues w (s + i)).2.1),
        succ := acc.succ ++ (List.range n).map (fun i : Nat => (pointValues w (s + i)).2.2.1),
        errs := acc.errs
          ++ (List.range n).map (fun i : Nat => (pointValues w (s + i)).2.2.2.1),
        timeouts := acc.timeouts
          ++ (List.range n).map (fun i : Nat => (pointValues w (s + i)).2.2.2.2) } := by
  induction n generalizing s acc with
  | zero => simp [snapshotLoop]
  | succ n ih =>
    have hle : s ≤ last := by push_cast at h; omega
    have hnext : s + 1 + (n : Int) = last + 1 := by push_cast at h; omega
    simp only [snapshotLoop, hle, if_true]
    rw [ih (s + 1) _ hnext, snapshotStep_eq_push]
    simp only [Series.push]
    rw [append_range_shift (fun t => t), append_range_shift (fun t => (pointValues w t).1),
      append_range_shift (fun t => (pointValues w t).2.1),
      append_range_shift (fun t => (pointValues w t).2.2.1),
      append_range_shift (fun t => (pointValues w t).2.2.2.1),
      append_range_shift (fun t => (pointValues w t).2.2.2.2)]

theorem getElem?_map_range {α : Type} (f : Nat → α) (n i : Nat) (h : i < n) :
    ((List.range n).map f)[i]? = some (f i) := by
  rw [List.getElem?_map, List.getElem?_range h]
  rfl

/-- C17. For a window holding at least one bucket and a second `s` of
`[now-span+1, now]`, the data point of `snapshot` for `s` sits at index `s-(now-span+1)`
of the six series: its second is `s`; without a bucket for `s` the other five values are
0; with a bucket `b` they are `b.Requests`, the truncated quotient
`b.LatencyTotalMs / b.Requests` (0 when `b.Requests` is 0), `b.Success`, `b.Errors` and
`b.Timeouts`. The window is the same after the call. -/
theorem snapshot_data_point (w : slidingWindow) (now s : Int) (hne : w.window ≠ [])
    (hlo : now - w.span + 1 ≤ s) (hhi : s ≤ now) :
    ∃ i : Nat, (i : Int) = s - (now - w.span + 1) ∧
      (w.snapshot now).secs[i]? = some s ∧
      (mapGet w.window s = none →
        (w.snapshot now).rps[i]? = some 0 ∧ (w.snapshot now).avgLatency[i]? = some 0 ∧
        (w.snapshot now).succ[i]? = some 0 ∧ (w.snapshot now).errs[i]? = some 0 ∧
        (w.snapshot now).timeouts[i]? = some 0) ∧
      (∀ b, mapGet w.window s = some b →
        (w.snapshot now).rps[i]? = some b.Requests ∧
        (w.snapshot now).avgLatency[i]?
          = some (if b.Requests > 0 then b.LatencyTotalMs.tdiv b.Requests else 0) ∧
        (0 ≤ b.Requests → (w.snapshot now).avgLatency[i]?
          = some (if b.Requests = 0 then 0 else b.LatencyTotalMs.tdiv b.Requests)) ∧
        (w.snapshot now).succ[i]? = some b.Success ∧
        (w.snapshot now).errs[i]? = some b.Errors ∧
        (w.snapshot now).timeouts[i]? = some b.Timeouts) ∧
      (w.snapshotRun now).2 = w := by
  have hspan : 0 < w.span := by omega
  obtain ⟨i, hi⟩ := Int.eq_ofNat_of_zero_le (show 0 ≤ s - (now - w.span + 1) by omega)
  have hin : i < w.span.toNat := by
    have : (i : Int) < w.span := by omega
    omega
  have hs : now - w.span + 1 + (i : Int) = s := by omega
  have hsum : now - w.span + 1 + (w.span.toNat : Int) = now + 1 := by
    rw [Int.toNat_of_nonneg (le_of_lt hspan)]
    omega
  have hsnap : w.snapshot now = _ :=
    (snapshot_nonempty_eq w now hne).trans
      (snapshotLoop_eq w now w.span.toNat (now - w.span + 1) Series.nil hsum)
  refine ⟨i, hi.symm, ?_, ?_, ?_, rfl⟩
  · rw [hsnap]
    simp only [Series.nil, List.nil_append]
    rw [getElem?_map_range _ _ _ hin, hs]
  · intro hnone
    rw [hsnap]
    simp only [Series.nil, List.nil_append]
    rw [getElem?_map_range _ _ _ hin, getElem?_map_range _ _ _ hin,
      getElem?_map_range _ _ _ hin, getElem?_map_range _ _ _ hin,
      getElem?_map_range _ _ _ hin, hs]
    simp [pointValues, hnone]
  · intro b hb
    rw [hsnap]
    simp only [Series.nil, List.nil_append]
    rw [getElem?_map_range _ _ _ hin, getElem?_map_range _ _ _ hin,
      getElem?_map_range _ _ _ hin, getElem?_map_range _ _ _ hin,
      getElem?_map_range _ _ _ hin, hs]
    simp only [pointValues, hb]
    refine ⟨trivial, trivial, ?_, trivial, trivial, trivial⟩
    intro h0
    by_cases hz : b.Requests = 0
    · simp [hz]
    · have hpos : b.Requests > 0 := by omega
      simp [hz, hpos]

/-- Witness for C17: horizon 3, samples of 7 ms and 8 ms in second 99, read at second 100;
the point of second 99 is at index 1 with 2 requests and average 7 (15 / 2 truncated). -/
theorem snapshot_data_point_witness :
    ∃ i : Nat, (i : Int) = 99 - (100 - 3 + 1) ∧
      ((((newSlidingWindow 3).add 99 7 true false).add 99 8 false true).snapshot 100).rps[i]?
        = some 2 ∧
      ((((newSlidingWindow 3).add 99 7 true false).add 99 8 false true).snapshot
        100).avgLatency[i]? = some 7 := by
  obtain ⟨i, hi, _, _, hb, _⟩ :=
    snapshot_data_point (((newSlidingWindow 3).add 99 7 true false).add 99 8 false true)
      100 99 (by decide) (by decide) (by decide)
  obtain ⟨h1, h2, _⟩ := hb ⟨2, 1, 0, 1, 15⟩ (by decide)
  exact ⟨i, hi, h1, h2⟩

/-! ## Bounded memory of slidingWindow -/

theorem mem_mapPut (m : BucketMap) (k : Int) (b : secondBucket) (kv : Int × secondBucket)
    (h : kv ∈ mapPut m k b) : kv.1 = k ∨ kv ∈ m := by
  induction m with
  | nil =>
    simp only [mapPut, List.mem_singleton] at h
    left; rw [h]
  | cons e rest ih =>
    obtain ⟨k1, b1⟩ := e
    by_cases hk : k1 = k
    · simp only [mapPut, hk, if_true, List.mem_cons] at h
      rcases h with h | h
      · left; rw [h]
      · right; exact List.mem_cons_of_mem _ h
    · simp only [mapPut, hk, if_false, List.mem_cons] at h
      rcases h with h | h
      · right; rw [h]; exact List.mem_cons_self _ _
      · rcases ih h with h1 | h1
        · left; exact h1
        · right; exact List.mem_cons_of_mem _ h1

theorem keys_mapPut (m : BucketMap) (k : Int) (b : secondBucket) :
    (mapPut m k b).map Prod.fst
      = if k ∈ m.map Prod.fst then m.map Prod.fst else m.map Prod.fst ++ [k] := by
  induction m with
  | nil => simp [mapPut]
  | cons e rest ih =>
    obtain ⟨k1, b1⟩ := e
    by_cases hk : k1 = k
    · subst hk
      simp [mapPut]
    · have hk1 : ¬ k = k1 := fun h => hk h.symm
      simp only [mapPut, hk, if_false, List.map_cons, ih, List.mem_cons, hk1, false_or]
      split <;> simp

theorem nodup_keys_mapPut (m : BucketMap) (k : Int) (b : secondBucket)
    (h : (m.map Prod.fst).Nodup) : ((mapPut m k b).map Prod.fst).Nodup := by
  rw [keys_mapPut]
  split
  · exact h
  · rename_i hk
    exact List.Nodup.append h (List.nodup_singleton k) (by
      intro x hx hx1
      simp only [List.mem_singleton] at hx1
      exact hk (hx1 ▸ hx))

theorem nodup_keys_mapEvict (m : BucketMap) (cut : Int) (h : (m.map Prod.fst).Nodup) :
    ((mapEvict m cut).map Prod.fst).Nodup :=
  List.Nodup.sublist (List.Sublist.map _ (List.filter_sublist _)) h

theorem add_keys_bounded (w : slidingWindow) (sec latencyMs : Int) (ok isTimeout : Bool)
    (top : Int) (htop : top ≤ sec) (hle : ∀ kv ∈ w.window, kv.1 ≤ top)
    (hnd : (w.window.map Prod.fst).Nodup) :
    (∀ kv ∈ (w.add sec latencyMs ok isTimeout).window,
      sec - w.span ≤ kv.1 ∧ kv.1 ≤ sec) ∧
    ((w.add sec latencyMs ok isTimeout).window.map Prod.fst).Nodup ∧
    (w.add sec latencyMs ok isTimeout).span = w.span := by
  refine ⟨?_, ?_, rfl⟩
  · intro kv hkv
    refine ⟨mem_mapEvict _ _ kv hkv, ?_⟩
    have hmem := (List.mem_filter.mp hkv).1
    rcases mem_mapPut _ _ _ kv hmem with h | h
    · omega
    · have := hle kv h
      omega
  · exact nodup_keys_mapEvict _ _ (nodup_keys_mapPut _ _ _ hnd)

theorem addAll_append_one (w : slidingWindow) (l : List (Int × Int × Bool × Bool))
    (x : Int × Int × Bool × Bool) :
    w.addAll (l ++ [x]) = (w.addAll l).add x.1 x.2.1 x.2.2.1 x.2.2.2 := by
  induction l generalizing w with
  | nil => rfl
  | cons y l ih => exact ih (w.add y.1 y.2.1 y.2.2.1 y.2.2.2)

theorem addAll_keys_le (l : List (Int × Int × Bool × Bool)) (w : slidingWindow)
    (top bound : Int) (htb : top ≤ bound) (hle : ∀ kv ∈ w.window, kv.1 ≤ top)
    (hnd : (w.window.map Prod.fst).Nodup)
    (hsorted : List.Pairwise (· ≤ ·) (l.map fun x => x.1))
    (hsecs : ∀ x ∈ l, top ≤ x.1 ∧ x.1 ≤ bound) :
    (∀ kv ∈ (w.addAll l).window, kv.1 ≤ bound) ∧
    ((w.addAll l).window.map Prod.fst).Nodup ∧ (w.addAll l).span = w.span := by
  induction l generalizing w top with
  | nil =>
    exact ⟨fun kv hkv => le_trans (hle kv hkv) htb, hnd, rfl⟩
  | cons x l ih =>
    have hx := hsecs x (List.mem_cons_self _ _)
    obtain ⟨hk, hnd1, hspan1⟩ :=
      add_keys_bounded w x.1 x.2.1 x.2.2.1 x.2.2.2 top hx.1 hle hnd
    rw [List.map_cons, List.pairwise_cons] at hsorted
    obtain ⟨h1, h2, h3⟩ := ih (w.add x.1 x.2.1 x.2.2.1 x.2.2.2) x.1 hx.2
      (fun kv hkv => (hk kv hkv).2) hnd1 hsorted.2
      (fun y hy => ⟨hsorted.1 y.1 (List.mem_map_of_mem _ hy),
        (hsecs y (List.mem_cons_of_mem _ hy)).2⟩)
    exact ⟨h1, h2, h3.trans hspan1⟩

theorem length_le_of_nodup_bounded (l : List Int) (a b : Int) (hnd : l.Nodup)
    (h : ∀ x ∈ l, a ≤ x ∧ x ≤ b) : l.length ≤ (b + 1 - a).toNat := by
  have hsub : l.toFinset ⊆ Finset.Icc a b := by
    intro x hx
    rw [List.mem_toFinset] at hx
    exact Finset.mem_Icc.mpr (h x hx)
  calc l.length = l.toFinset.card := (List.toFinset_card_of_nodup hnd).symm
    _ ≤ (Finset.Icc a b).card := Finset.card_le_card hsub
    _ = (b + 1 - a).toNat := Int.card_Icc a b

/-- C20. On a fresh window of horizon `span`, after any sequence of `add` calls whose unix
seconds are non-decreasing and whose last call is at second `sec`, every key of the map
lies in `[sec - span, sec]`, the keys are pairwise distinct, and the map holds at most
`span + 1` buckets (none if `span < 0`). Without the precondition there is no such bound:
with horizon 1 the writes at seconds 5, 4, 3, 2 leave four buckets, the one of second 5
among them. -/
theorem addAll_bounded (span : Int) (pre : List (Int × Int × Bool × Bool))
    (x : Int × Int × Bool × Bool)
    (hsorted : List.Pairwise (· ≤ ·) ((pre ++ [x]).map fun y => y.1)) :
    (∀ kv ∈ ((newSlidingWindow span).addAll (pre ++ [x])).window,
      x.1 - span ≤ kv.1 ∧ kv.1 ≤ x.1) ∧
    (((newSlidingWindow span).addAll (pre ++ [x])).window.map Prod.fst).Nodup ∧
    ((newSlidingWindow span).addAll (pre ++ [x])).window.length ≤ (span + 1).toNat ∧
    ((((((newSlidingWindow 1).add 5 0 true false).add 4 0 true false).add 3 0 true
        false).add 2 0 true false).window.map Prod.fst = [5, 4, 3, 2]) := by
  rw [List.map_append, List.pairwise_append] at hsorted
  obtain ⟨hpre, _, hlast⟩ := hsorted
  have hprex : ∀ y ∈ pre, y.1 ≤ x.1 := fun y hy =>
    hlast y.1 (List.mem_map_of_mem _ hy) x.1 (by simp)
  -- a lower bound for all seconds, to start the induction from the empty map
  obtain ⟨h1, h2, h3⟩ := addAll_keys_le pre (newSlidingWindow span)
    (pre.foldr (fun y acc => min y.1 acc) x.1) x.1
    (by
      clear hpre hlast hprex
      induction pre with
      | nil => exact le_refl _
      | cons y l ih => exact le_trans (min_le_right _ _) ih)
    (by intro kv hkv; simp [newSlidingWindow] at hkv)
    (by simp [newSlidingWindow]) hpre
    (by
      intro y hy
      refine ⟨?_, hprex y hy⟩
      clear hpre hlast hprex
      induction pre with
      | nil => simp at hy
      | cons z l ih =>
        rcases List.mem_cons.mp hy with h | h
        · rw [h]; exact min_le_left _ _
        · exact le_trans (min_le_right _ _) (ih h))
  have hspan : ((newSlidingWindow span).addAll pre).span = span := h3
  obtain ⟨hk, hnd, _⟩ := add_keys_bounded ((newSlidingWindow span).addAll pre)
    x.1 x.2.1 x.2.2.1 x.2.2.2 x.1 (le_refl _) h1 h2
  rw [hspan] at hk
  rw [addAll_append_one]
  refine ⟨hk, hnd, ?_, by decide⟩
  have hlen := length_le_of_nodup_bounded _ (x.1 - span) x.1 hnd (by
    intro k hkm
    obtain ⟨kv, hkv, rfl⟩ := List.mem_map.mp hkm
    exact hk kv hkv)
  rw [List.length_map] at hlen
  have he : x.1 + 1 - (x.1 - span) = span + 1 := by omega
  rw [he] at hlen
  exact hlen

/-- Witness for C20: horizon 2 and writes at seconds 10, 10, 11, 13: the keys lie in
`[11, 13]` and there are at most three buckets. -/
theorem addAll_bounded_witness :
    (∀ kv ∈ ((newSlidingWindow 2).addAll
        ([(10, 5, true, false), (10, 6, false, true), (11, 7, true, false)]
          ++ [(13, 8, true, false)])).window, (13 : Int) - 2 ≤ kv.1 ∧ kv.1 ≤ 13) ∧
    ((newSlidingWindow 2).addAll
        ([(10, 5, true, false), (10, 6, false, true), (11, 7, true, false)]
          ++ [(13, 8, true, false)])).window.length ≤ 3 :=
  ⟨(addAll_bounded 2 [(10, 5, true, false), (10, 6, false, true), (11, 7, true, false)]
      (13, 8, true, false) (by decide)).1,
   (addAll_bounded 2 [(10, 5, true, false), (10, 6, false, true), (11, 7, true, false)]
      (13, 8, true, false) (by decide)).2.2.1⟩

end MockFunnel
